import Mathlib

/-!
Formal model of `src/app.py` (Exxata directory & forum Streamlit app).

The app persists two JSON documents (`data/items.json`, `data/threads.json`)
through a local-file backend (`_local_read_json` / `_local_write_json`,
app.py lines 75-97), filters the item collection with pandas string matching
(lines 204-227), and mutates collections with read-modify-write handlers
(upvote lines 253-263, add-link lines 264-284, create-item lines 300-327,
create-thread lines 338-356, reply lines 402-416).

The model is a shallow embedding:
* `Json` mirrors the Python values handled by `json.dumps` / `json.load`
  (floats are outside the model; the app only stores strings, ints, lists
  and string-keyed dicts).
* `dumps` mirrors `json.dumps(data, ensure_ascii=False, indent=2)` (the
  write path) and `json.dump(default, f)` (compact separators, the
  read-miss path) through the `ind : Option Nat` parameter, matching
  CPython's output byte for byte on the modelled value space.
* `loads` mirrors `json.load`: a whitespace-skipping recursive-descent
  parser (fuel-indexed for totality).
* the filesystem is a map from path to file content plus a set of created
  directories; `ts()` results are passed in explicitly, one parameter per
  `ts()` call site in evaluation order, since `datetime.utcnow()` is a
  fresh clock read at each call.
-/

namespace ExxataApp

/-- A JSON value as handled by `json.dumps`/`json.load` in app.py.  Object
fields keep insertion order, as Python dicts do.  Floats never occur in the
app's data and are not modelled. -/
inductive Json where
  | null
  | bool (b : Bool)
  | int (n : Int)
  | str (s : String)
  | arr (elems : List Json)
  | obj (fields : List (String × Json))

/-! ### Character-level helpers for the JSON codec -/

/-- JSON whitespace, as skipped by Python's `json` scanner (` \t\n\r`). -/
def wsChar (c : Char) : Bool :=
  (c == ' ') || (c == '\t') || (c == '\n') || (c == '\r')

/-- Drop leading JSON whitespace. -/
def dropWs : List Char → List Char
  | [] => []
  | c :: cs => if wsChar c then dropWs cs else c :: cs

/-- Numeric value of a decimal digit character. -/
def digitVal (c : Char) : Nat := c.toNat - 48

/-- Decimal digit characters of `n`, most significant first (the digits
`json.dumps` emits for a non-negative integer). -/
def natChars (n : Nat) : List Char :=
  if _h : n < 10 then [Char.ofNat (48 + n)]
  else natChars (n / 10) ++ [Char.ofNat (48 + n % 10)]
termination_by n
decreasing_by exact Nat.div_lt_self (by omega) (by omega)

/-- Value of a run of decimal digit characters. -/
def natVal (l : List Char) : Nat := l.foldl (fun a c => a * 10 + digitVal c) 0

/-- Split off the maximal leading run of decimal digits. -/
def grabDigits : List Char → List Char × List Char
  | [] => ([], [])
  | c :: cs =>
    if c.isDigit then
      let p := grabDigits cs
      (c :: p.1, p.2)
    else ([], c :: cs)

/-- Lower-case hex digit character for `n < 16`, as emitted by Python's
`\uXXXX` escapes. -/
def hexChar (n : Nat) : Char :=
  if n < 10 then Char.ofNat (48 + n) else Char.ofNat (87 + n)

/-- Value of a hex digit character (Python's `\uXXXX` decoder accepts both
cases). -/
def hexNum (c : Char) : Option Nat :=
  if ('0' ≤ c && c ≤ '9') then some (c.toNat - 48)
  else if ('a' ≤ c && c ≤ 'f') then some (c.toNat - 87)
  else if ('A' ≤ c && c ≤ 'F') then some (c.toNat - 55)
  else none

/-- Escape one character the way `json.dumps(..., ensure_ascii=False)` does:
`"`, `\`, the five short control escapes, `\u00XX` for the remaining
control characters, and every other character verbatim. -/
def escChar (c : Char) : List Char :=
  if c = '"' then ['\\', '"']
  else if c = '\\' then ['\\', '\\']
  else if c = '\n' then ['\\', 'n']
  else if c = '\r' then ['\\', 'r']
  else if c = '\t' then ['\\', 't']
  else if c = Char.ofNat 8 then ['\\', 'b']
  else if c = Char.ofNat 12 then ['\\', 'f']
  else if c.toNat < 32 then
    ['\\', 'u', '0', '0', hexChar (c.toNat / 16), hexChar (c.toNat % 16)]
  else [c]

/-- Escape a whole string body. -/
def escape : List Char → List Char
  | [] => []
  | c :: cs => escChar c ++ escape cs

/-- Parse a JSON string body after the opening quote, decoding escapes;
returns the decoded characters and the input after the closing quote. -/
def parseStrBody : List Char → Option (List Char × List Char)
  | [] => none
  | '"' :: r => some ([], r)
  | '\\' :: 'u' :: a :: b :: c :: d :: r => do
      let va ← hexNum a
      let vb ← hexNum b
      let vc ← hexNum c
      let vd ← hexNum d
      let p ← parseStrBody r
      pure (Char.ofNat (((va * 16 + vb) * 16 + vc) * 16 + vd) :: p.1, p.2)
  | '\\' :: e :: r => do
      let ch ←
        if e = '"' then some '"'
        else if e = '\\' then some '\\'
        else if e = '/' then some '/'
        else if e = 'b' then some (Char.ofNat 8)
        else if e = 'f' then some (Char.ofNat 12)
        else if e = 'n' then some '\n'
        else if e = 'r' then some '\r'
        else if e = 't' then some '\t'
        else none
      let p ← parseStrBody r
      pure (ch :: p.1, p.2)
  | c :: r => do
      let p ← parseStrBody r
      pure (c :: p.1, p.2)

/-! ### Codec helper lemmas -/

theorem digit_char_spec :
    ∀ n, n < 10 →
      (Char.ofNat (48 + n)).toNat = 48 + n ∧ (Char.ofNat (48 + n)).isDigit = true := by
  decide

theorem natChars_split (n : Nat) :
    natChars n = (if n < 10 then [] else natChars (n / 10)) ++ [Char.ofNat (48 + n % 10)] := by
  rw [natChars]
  by_cases h : n < 10
  · simp [h, Nat.mod_eq_of_lt h]
  · simp [h]

theorem natChars_ne_nil (n : Nat) : natChars n ≠ [] := by
  rw [natChars_split]
  simp

theorem natChars_digits (n : Nat) : ∀ c ∈ natChars n, c.isDigit = true := by
  induction n using Nat.strongRecOn with
  | _ n ih =>
    rw [natChars_split]
    intro c hc
    rw [List.mem_append] at hc
    cases hc with
    | inl h =>
      by_cases h10 : n < 10
      · simp [h10] at h
      · exact ih (n / 10) (Nat.div_lt_self (by omega) (by omega)) c (by simpa [h10] using h)
    | inr h =>
      rw [List.mem_singleton] at h
      subst h
      exact (digit_char_spec _ (Nat.mod_lt _ (by omega))).2

theorem natVal_natChars (n : Nat) : natVal (natChars n) = n := by
  induction n using Nat.strongRecOn with
  | _ n ih =>
    rw [natChars_split]
    by_cases h : n < 10
    · simp only [if_pos h, List.nil_append, natVal, List.foldl_cons, List.foldl_nil]
      rw [digitVal, (digit_char_spec _ (Nat.mod_lt _ (by omega))).1]
      omega
    · simp only [if_neg h, natVal, List.foldl_append, List.foldl_cons, List.foldl_nil]
      have := ih (n / 10) (Nat.div_lt_self (by omega) (by omega))
      rw [natVal] at this
      rw [this, digitVal, (digit_char_spec _ (Nat.mod_lt _ (by omega))).1]
      omega

/-- Grabbing digits from a digit run followed by a non-digit (or nothing)
returns exactly the run. -/
theorem grabDigits_run (ds : List Char) (hds : ∀ c ∈ ds, c.isDigit = true) :
    ∀ rest, (rest = [] ∨ ∃ c t, rest = c :: t ∧ c.isDigit = false) →
      grabDigits (ds ++ rest) = (ds, rest) := by
  induction ds with
  | nil =>
    intro rest hrest
    rcases hrest with h | ⟨c, t, rfl, hc⟩
    · simp [h, grabDigits]
    · simp [grabDigits, hc]
  | cons c cs ih =>
    intro rest hrest
    have hc : c.isDigit = true := hds c (by simp)
    have := ih (fun x hx => hds x (by simp [hx])) rest hrest
    simp [grabDigits, hc, this]

theorem hexNum_hexChar : ∀ n, n < 16 → hexNum (hexChar n) = some n := by
  decide

theorem wsChar_run (ws : List Char) (hws : ∀ c ∈ ws, wsChar c = true) (s : List Char) :
    dropWs (ws ++ s) = dropWs s := by
  induction ws with
  | nil => simp
  | cons c cs ih =>
    have hc := hws c (by simp)
    simp [dropWs, hc, ih (fun x hx => hws x (by simp [hx]))]

theorem wsChar_replicate (k : Nat) : ∀ c ∈ List.replicate k ' ', wsChar c = true := by
  intro c hc
  rw [List.mem_replicate] at hc
  simp [hc.2, wsChar]

theorem dropWs_cons_not {c : Char} {t : List Char} (h : wsChar c = false) :
    dropWs (c :: t) = c :: t := by
  simp [dropWs, h]

/-- Parsing one escaped character undoes `escChar`. -/
theorem parseStrBody_escChar (c : Char) (rest : List Char) :
    parseStrBody (escChar c ++ rest)
      = (parseStrBody rest).map (fun p => (c :: p.1, p.2)) := by
  rw [escChar]
  by_cases h1 : c = '"'
  · subst h1
    cases h : parseStrBody rest <;> simp [parseStrBody, h, Option.bind]
  by_cases h2 : c = '\\'
  · subst h2
    cases h : parseStrBody rest <;> simp [parseStrBody, h, Option.bind]
  by_cases h3 : c = '\n'
  · subst h3
    cases h : parseStrBody rest <;> simp [parseStrBody, h, Option.bind]
  by_cases h4 : c = '\r'
  · subst h4
    cases h : parseStrBody rest <;> simp [parseStrBody, h, Option.bind]
  by_cases h5 : c = '\t'
  · subst h5
    cases h : parseStrBody rest <;> simp [parseStrBody, h, Option.bind]
  by_cases h6 : c = Char.ofNat 8
  · subst h6
    cases h : parseStrBody rest <;> simp [parseStrBody, h, Option.bind]
  by_cases h7 : c = Char.ofNat 12
  · subst h7
    cases h : parseStrBody rest <;> simp [parseStrBody, h, Option.bind]
  by_cases h8 : c.toNat < 32
  · simp only [if_neg h1, if_neg h2, if_neg h3, if_neg h4, if_neg h5, if_neg h6, if_neg h7,
      if_pos h8, List.cons_append]
    have hhi : c.toNat / 16 < 16 := by omega
    have hlo : c.toNat % 16 < 16 := Nat.mod_lt _ (by omega)
    have h0 : hexNum '0' = some 0 := by decide
    have hsum : c.toNat / 16 * 16 + c.toNat % 16 = c.toNat := by omega
    cases h : parseStrBody rest <;>
      simp [parseStrBody, h0, hexNum_hexChar _ hhi, hexNum_hexChar _ hlo, h, Option.bind]
    rw [hsum, Char.ofNat_toNat]
  · simp only [if_neg h1, if_neg h2, if_neg h3, if_neg h4, if_neg h5, if_neg h6, if_neg h7,
      if_neg h8, List.cons_append, List.nil_append]
    rw [parseStrBody.eq_def]
    cases h : parseStrBody rest <;> simp [h1, h2, h, Option.bind]

/-- Parsing an escaped body stops exactly at the closing quote and recovers
the original characters. -/
theorem parseStrBody_escape (l : List Char) :
    ∀ rest, parseStrBody (escape l ++ '"' :: rest) = some (l, rest) := by
  induction l with
  | nil => intro rest; simp [escape, parseStrBody]
  | cons c cs ih =>
    intro rest
    rw [escape, List.append_assoc, parseStrBody_escChar, ih]
    simp

/-! ### Serialization: `json.dumps`

With `indent=2` (the `_local_write_json` path) CPython separates items by
`",\n" + 2*level` spaces and opens each container with a newline; with no
indent (the `json.dump(default, f)` path in `_local_read_json`) separators
are `", "` and `": "`.  The `ind` parameter selects the style. -/

/-- Newline-plus-indentation before an element at nesting level `lvl`
(nothing in compact mode). -/
def nlQ (ind : Option Nat) (lvl : Nat) : List Char :=
  match ind with
  | none => []
  | some w => '\n' :: List.replicate (w * lvl) ' '

/-- Item separator at nesting level `lvl`. -/
def sepQ (ind : Option Nat) (lvl : Nat) : List Char :=
  match ind with
  | none => [',', ' ']
  | some w => ',' :: '\n' :: List.replicate (w * lvl) ' '

mutual
/-- Character output of `json.dumps` for one value at nesting level `lvl`. -/
def dumpVal (ind : Option Nat) (lvl : Nat) : Json → List Char
  | .null => 'n' :: 'u' :: 'l' :: 'l' :: []
  | .bool true => 't' :: 'r' :: 'u' :: 'e' :: []
  | .bool false => 'f' :: 'a' :: 'l' :: 's' :: 'e' :: []
  | .int n => if n < 0 then '-' :: natChars n.natAbs else natChars n.natAbs
  | .str s => '"' :: (escape s.toList ++ ['"'])
  | .arr [] => ['[', ']']
  | .arr (x :: xs) =>
      '[' :: (nlQ ind (lvl + 1) ++ dumpElems ind (lvl + 1) x xs ++ nlQ ind lvl ++ [']'])
  | .obj [] => ['{', '}']
  | .obj ((k, v) :: fs) =>
      '{' :: (nlQ ind (lvl + 1) ++ dumpFields ind (lvl + 1) k v fs ++ nlQ ind lvl ++ ['}'])
  termination_by j => sizeOf j
  decreasing_by all_goals (simp_wf; try omega)
/-- Output for a non-empty run of array elements, separated by `sepQ`. -/
def dumpElems (ind : Option Nat) (lvl : Nat) (x : Json) : List Json → List Char
  | [] => dumpVal ind lvl x
  | y :: ys => dumpVal ind lvl x ++ sepQ ind lvl ++ dumpElems ind lvl y ys
  termination_by xs => sizeOf x + sizeOf xs
  decreasing_by all_goals (simp_wf; try omega)
/-- Output for a non-empty run of object members (`"key": value`). -/
def dumpFields (ind : Option Nat) (lvl : Nat) (k : String) (v : Json) :
    List (String × Json) → List Char
  | [] => '"' :: (escape k.toList ++ ('"' :: ':' :: ' ' :: dumpVal ind lvl v))
  | (k2, v2) :: gs => '"' :: (escape k.toList ++ ('"' :: ':' :: ' ' ::
      (dumpVal ind lvl v ++ sepQ ind lvl ++ dumpFields ind lvl k2 v2 gs)))
  termination_by fs => sizeOf v + sizeOf fs
  decreasing_by all_goals (simp_wf; try omega)
end

/-- Full text written by `_local_write_json`:
`json.dumps(data, ensure_ascii=False, indent=2)`. -/
def dumps (data : Json) : String := String.mk (dumpVal (some 2) 0 data)

/-- Full text written for a missing file by `_local_read_json`:
`json.dump(default, f)` (compact separators). -/
def dumpCompact (data : Json) : String := String.mk (dumpVal none 0 data)

/-! ### Parsing: `json.load`

A whitespace-skipping recursive-descent parser over the character list,
indexed by fuel for totality; `loads` supplies `length + 1` fuel, which the
round-trip lemmas show is always enough.  Python would parse fractional or
exponent notation into floats; those never occur in the app's documents and
are outside the model (`parseNumTok` stops at the integer part). -/

/-- Parse an integer token (optional minus sign, then a digit run). -/
def parseNumTok : List Char → Option (Json × List Char)
  | '-' :: r =>
      let p := grabDigits r
      if p.1 = [] then none else some (.int (-(natVal p.1 : Int)), p.2)
  | s =>
      let p := grabDigits s
      if p.1 = [] then none else some (.int ((natVal p.1 : Int)), p.2)

mutual
/-- Parse one JSON value after skipping leading whitespace. -/
def parseVal : Nat → List Char → Option (Json × List Char)
  | 0, _ => none
  | fuel + 1, s =>
    match dropWs s with
    | 'n' :: 'u' :: 'l' :: 'l' :: r => some (.null, r)
    | 't' :: 'r' :: 'u' :: 'e' :: r => some (.bool true, r)
    | 'f' :: 'a' :: 'l' :: 's' :: 'e' :: r => some (.bool false, r)
    | '"' :: r => (parseStrBody r).map (fun p => (.str (String.mk p.1), p.2))
    | '[' :: r =>
        match dropWs r with
        | [] => none
        | c :: r2 =>
            if c = ']' then some (.arr [], r2)
            else (parseElems fuel (c :: r2)).map (fun p => (.arr p.1, p.2))
    | '{' :: r =>
        match dropWs r with
        | [] => none
        | c :: r2 =>
            if c = '}' then some (.obj [], r2)
            else (parseFields fuel (c :: r2)).map (fun p => (.obj p.1, p.2))
    | c :: r => if c = '-' || c.isDigit then parseNumTok (c :: r) else none
    | [] => none
/-- Parse one-or-more comma-separated array elements and the closing `]`. -/
def parseElems : Nat → List Char → Option (List Json × List Char)
  | 0, _ => none
  | fuel + 1, s => do
      let p ← parseVal fuel s
      match dropWs p.2 with
      | ',' :: r2 => (parseElems fuel r2).map (fun q => (p.1 :: q.1, q.2))
      | ']' :: r2 => some ([p.1], r2)
      | _ => none
/-- Parse one-or-more `"key": value` members and the closing `}`. -/
def parseFields : Nat → List Char → Option (List (String × Json) × List Char)
  | 0, _ => none
  | fuel + 1, s =>
    match dropWs s with
    | '"' :: r => do
        let k ← parseStrBody r
        match dropWs k.2 with
        | ':' :: r2 => do
            let v ← parseVal fuel r2
            match dropWs v.2 with
            | ',' :: r3 =>
                (parseFields fuel r3).map (fun q => ((String.mk k.1, v.1) :: q.1, q.2))
            | '}' :: r3 => some ([(String.mk k.1, v.1)], r3)
            | _ => none
        | _ => none
    | _ => none
end

/-- Full behaviour of `json.load(f)`: parse the whole text, rejecting
trailing non-whitespace. -/
def loads (s : String) : Option Json :=
  match parseVal (s.toList.length + 1) s.toList with
  | some p => if dropWs p.2 = [] then some p.1 else none
  | none => none

/-! ### Round-trip: `loads` inverts `dumps` (both styles) -/

theorem mk_toList (s : String) : String.mk s.toList = s := by
  cases s
  rfl

theorem wsChar_not_digit (c : Char) (h : wsChar c = true) : c.isDigit = false := by
  simp only [wsChar, Bool.or_eq_true, beq_iff_eq] at h
  rcases h with ((h | h) | h) | h <;> (subst h; decide)

theorem isDigit_facts (c : Char) (h : c.isDigit = true) :
    wsChar c = false ∧ c ≠ 'n' ∧ c ≠ 't' ∧ c ≠ 'f' ∧ c ≠ '"' ∧ c ≠ '[' ∧ c ≠ '{' ∧
      c ≠ ']' ∧ c ≠ '}' ∧ c ≠ '-' := by
  refine ⟨?_, ?_, ?_, ?_, ?_, ?_, ?_, ?_, ?_, ?_⟩
  · cases hw : wsChar c
    · rfl
    · rw [wsChar_not_digit c hw] at h
      exact absurd h (by simp)
  all_goals (intro h2; subst h2; exact absurd h (by decide))

theorem natChars_head (n : Nat) :
    ∃ c t, natChars n = c :: t ∧ c.isDigit = true := by
  cases h : natChars n with
  | nil => exact absurd h (natChars_ne_nil n)
  | cons c t =>
    refine ⟨c, t, rfl, natChars_digits n c ?_⟩
    rw [h]
    exact List.mem_cons_self ..

theorem nlQ_ws (ind : Option Nat) (lvl : Nat) : ∀ c ∈ nlQ ind lvl, wsChar c = true := by
  intro c hc
  cases ind with
  | none => simp [nlQ] at hc
  | some w =>
    simp only [nlQ, List.mem_cons] at hc
    rcases hc with h | h
    · subst h; rfl
    · exact wsChar_replicate _ c h

theorem sepQ_shape (ind : Option Nat) (lvl : Nat) :
    ∃ wtail, sepQ ind lvl = ',' :: wtail ∧ (∀ c ∈ wtail, wsChar c = true) := by
  cases ind with
  | none => exact ⟨[' '], rfl, by intro c hc; simp at hc; subst hc; rfl⟩
  | some w =>
    refine ⟨'\n' :: List.replicate (w * lvl) ' ', rfl, ?_⟩
    intro c hc
    simp only [List.mem_cons] at hc
    rcases hc with h | h
    · subst h; rfl
    · exact wsChar_replicate _ c h

theorem sepQ_len (ind : Option Nat) (lvl : Nat) : 2 ≤ (sepQ ind lvl).length := by
  cases ind <;> simp [sepQ]

/-- Every dumped value starts with a non-whitespace character that closes
no container. -/
theorem dumpVal_head (ind : Option Nat) (lvl : Nat) (j : Json) :
    ∃ c t, dumpVal ind lvl j = c :: t ∧ wsChar c = false ∧ c ≠ ']' ∧ c ≠ '}' := by
  cases j with
  | null =>
    exact ⟨'n', ['u', 'l', 'l'], by simp [dumpVal], by decide, by decide, by decide⟩
  | bool b =>
    cases b with
    | true =>
      exact ⟨'t', ['r', 'u', 'e'], by simp [dumpVal], by decide, by decide, by decide⟩
    | false =>
      exact ⟨'f', ['a', 'l', 's', 'e'], by simp [dumpVal], by decide, by decide, by decide⟩
  | int n =>
    by_cases hn : n < 0
    · exact ⟨'-', natChars n.natAbs, by simp [dumpVal, hn], by decide, by decide, by decide⟩
    · obtain ⟨c, t, hct, hd⟩ := natChars_head n.natAbs
      obtain ⟨hws, _, _, _, _, _, _, hrb, hcb, _⟩ := isDigit_facts c hd
      exact ⟨c, t, by simp [dumpVal, hn, hct], hws, hrb, hcb⟩
  | str s =>
    exact ⟨'"', escape s.toList ++ ['"'], by simp [dumpVal], by decide, by decide, by decide⟩
  | arr l =>
    cases l with
    | nil => exact ⟨'[', [']'], by simp [dumpVal], by decide, by decide, by decide⟩
    | cons x xs =>
      exact ⟨'[', nlQ ind (lvl + 1) ++ dumpElems ind (lvl + 1) x xs ++ nlQ ind lvl ++ [']'],
        by simp [dumpVal], by decide, by decide, by decide⟩
  | obj l =>
    cases l with
    | nil => exact ⟨'{', ['}'], by simp [dumpVal], by decide, by decide, by decide⟩
    | cons f fs =>
      obtain ⟨k, v⟩ := f
      exact ⟨'{', nlQ ind (lvl + 1) ++ dumpFields ind (lvl + 1) k v fs ++ nlQ ind lvl ++ ['}'],
        by simp [dumpVal], by decide, by decide, by decide⟩

theorem dumpVal_len_pos (ind : Option Nat) (lvl : Nat) (j : Json) :
    1 ≤ (dumpVal ind lvl j).length := by
  obtain ⟨c, t, hct, _⟩ := dumpVal_head ind lvl j
  simp [hct]

theorem dumpElems_head (ind : Option Nat) (lvl : Nat) (x : Json) (xs : List Json) :
    ∃ c t, dumpElems ind lvl x xs = c :: t ∧ wsChar c = false ∧ c ≠ ']' ∧ c ≠ '}' := by
  obtain ⟨c, t, hct, h1, h2, h3⟩ := dumpVal_head ind lvl x
  cases xs with
  | nil => exact ⟨c, t, by simp [dumpElems, hct], h1, h2, h3⟩
  | cons y ys =>
    exact ⟨c, t ++ (sepQ ind lvl ++ dumpElems ind lvl y ys), by simp [dumpElems, hct], h1, h2, h3⟩

/-- Parsing is insensitive to prepended whitespace. -/
theorem parseVal_ws (fuel : Nat) (ws s : List Char) (hws : ∀ c ∈ ws, wsChar c = true) :
    parseVal fuel (ws ++ s) = parseVal fuel s := by
  cases fuel with
  | zero => simp [parseVal]
  | succ f => simp only [parseVal, wsChar_run ws hws s]

theorem parseElems_ws (fuel : Nat) (ws s : List Char) (hws : ∀ c ∈ ws, wsChar c = true) :
    parseElems fuel (ws ++ s) = parseElems fuel s := by
  cases fuel with
  | zero => simp [parseElems]
  | succ f => simp only [parseElems, parseVal_ws f ws s hws]

theorem parseFields_ws (fuel : Nat) (ws s : List Char) (hws : ∀ c ∈ ws, wsChar c = true) :
    parseFields fuel (ws ++ s) = parseFields fuel s := by
  cases fuel with
  | zero => simp [parseFields]
  | succ f => simp only [parseFields, wsChar_run ws hws s]

theorem dumpFields_shape (ind : Option Nat) (lvl : Nat) (k : String) (v : Json)
    (fs : List (String × Json)) : ∃ t, dumpFields ind lvl k v fs = '"' :: t := by
  cases fs with
  | nil =>
    exact ⟨escape k.toList ++ ('"' :: ':' :: ' ' :: dumpVal ind lvl v), by simp [dumpFields]⟩
  | cons g gs =>
    obtain ⟨k2, v2⟩ := g
    exact ⟨escape k.toList ++ ('"' :: ':' :: ' ' ::
      (dumpVal ind lvl v ++ sepQ ind lvl ++ dumpFields ind lvl k2 v2 gs)), by simp [dumpFields]⟩

/-- A rest list that cannot extend a number token: empty or headed by a
non-digit.  Every separator and closer the dumper emits qualifies. -/
def numStop (rest : List Char) : Prop :=
  rest = [] ∨ ∃ c t, rest = c :: t ∧ c.isDigit = false

theorem parseVal_intTok (f : Nat) (ch : Char) (t : List Char)
    (h : ch = '-' ∨ ch.isDigit = true) (hA : wsChar ch = false) (hB : ch ≠ 'n')
    (hC : ch ≠ 't') (hD : ch ≠ 'f') (hE : ch ≠ '"') (hF : ch ≠ '[') (hG : ch ≠ '{') :
    parseVal (f + 1) (ch :: t) = parseNumTok (ch :: t) := by
  simp only [parseVal, dropWs_cons_not hA]
  rcases h with h | h
  · subst h
    simp
  · simp [hB, hC, hD, hE, hF, hG, h]

theorem parseNumTok_digit (c : Char) (t : List Char) (h : c.isDigit = true) :
    parseNumTok (c :: t)
      = (if (grabDigits (c :: t)).1 = [] then none
         else some (.int ((natVal (grabDigits (c :: t)).1 : Int)), (grabDigits (c :: t)).2)) := by
  obtain ⟨_, _, _, _, _, _, _, _, _, hneg⟩ := isDigit_facts c h
  simp [parseNumTok, hneg]

mutual

theorem rt_val : ∀ (j : Json) (ind : Option Nat) (lvl fuel : Nat) (rest : List Char),
    (dumpVal ind lvl j).length < fuel → numStop rest →
    parseVal fuel (dumpVal ind lvl j ++ rest) = some (j, rest)
  | .null, ind, lvl, fuel, rest, hf, _ => by
    cases fuel with
    | zero => exact (Nat.not_lt_zero _ hf).elim
    | succ f => simp [dumpVal, parseVal, dropWs, wsChar]
  | .bool b, ind, lvl, fuel, rest, hf, _ => by
    cases fuel with
    | zero => exact (Nat.not_lt_zero _ hf).elim
    | succ f => cases b <;> simp [dumpVal, parseVal, dropWs, wsChar]
  | .int n, ind, lvl, fuel, rest, hf, hrest => by
    cases fuel with
    | zero => exact (Nat.not_lt_zero _ hf).elim
    | succ f =>
      by_cases hn : n < 0
      · have hsh : dumpVal ind lvl (.int n) = '-' :: natChars n.natAbs := by
          simp [dumpVal, hn]
        have hgrab : grabDigits (natChars n.natAbs ++ rest) = (natChars n.natAbs, rest) :=
          grabDigits_run _ (natChars_digits _) rest hrest
        have hval : (-(natVal (natChars n.natAbs) : Int)) = n := by
          rw [natVal_natChars]
          omega
        have hmf : wsChar '-' = false ∧ ('-' : Char) ≠ 'n' ∧ ('-' : Char) ≠ 't'
            ∧ ('-' : Char) ≠ 'f' ∧ ('-' : Char) ≠ '"' ∧ ('-' : Char) ≠ '['
            ∧ ('-' : Char) ≠ '{' := by decide
        rw [hsh, List.cons_append,
          parseVal_intTok f '-' _ (Or.inl rfl) hmf.1 hmf.2.1 hmf.2.2.1 hmf.2.2.2.1
            hmf.2.2.2.2.1 hmf.2.2.2.2.2.1 hmf.2.2.2.2.2.2]
        simp [parseNumTok, hgrab, natChars_ne_nil, hval]
      · obtain ⟨c, t, hct, hd⟩ := natChars_head n.natAbs
        obtain ⟨hws, hn', ht', hf', hq, hlb, hob, _, _, hneg⟩ := isDigit_facts c hd
        have hsh : dumpVal ind lvl (.int n) = c :: t := by
          simp [dumpVal, hn, hct]
        have hgrab : grabDigits (c :: (t ++ rest)) = (c :: t, rest) := by
          rw [← List.cons_append, ← hct]
          exact grabDigits_run _ (natChars_digits _) rest hrest
        have hval : ((natVal (c :: t) : Int)) = n := by
          rw [← hct, natVal_natChars]
          omega
        rw [hsh, List.cons_append,
          parseVal_intTok f c _ (Or.inr hd) hws hn' ht' hf' hq hlb hob,
          parseNumTok_digit c _ hd, hgrab]
        simp [hval]
  | .str s, ind, lvl, fuel, rest, hf, _ => by
    cases fuel with
    | zero => exact (Nat.not_lt_zero _ hf).elim
    | succ f =>
      have hsh : dumpVal ind lvl (.str s) ++ rest
          = '"' :: (escape s.toList ++ ('"' :: rest)) := by
        simp [dumpVal]
      rw [hsh]
      simp only [parseVal, dropWs_cons_not (by decide : wsChar '"' = false)]
      simp [parseStrBody_escape, mk_toList]
  | .arr [], ind, lvl, fuel, rest, hf, _ => by
    cases fuel with
    | zero => exact (Nat.not_lt_zero _ hf).elim
    | succ f => simp [dumpVal, parseVal, dropWs, wsChar]
  | .arr (x :: xs), ind, lvl, fuel, rest, hf, _ => by
    cases fuel with
    | zero => exact (Nat.not_lt_zero _ hf).elim
    | succ f =>
      obtain ⟨c0, t0, hel, hws0, hbr0, _⟩ := dumpElems_head ind (lvl + 1) x xs
      have hfe : (dumpElems ind (lvl + 1) x xs).length + 1 < f := by
        have h1 := dumpVal_len_pos ind lvl (.arr (x :: xs))
        simp only [dumpVal, List.length_cons, List.length_append,
          List.length_singleton] at hf
        omega
      have harg : dumpVal ind lvl (.arr (x :: xs)) ++ rest
          = '[' :: (nlQ ind (lvl + 1)
              ++ (dumpElems ind (lvl + 1) x xs ++ (nlQ ind lvl ++ (']' :: rest)))) := by
        simp [dumpVal]
      have hdrop : dropWs (nlQ ind (lvl + 1)
            ++ (dumpElems ind (lvl + 1) x xs ++ (nlQ ind lvl ++ (']' :: rest))))
          = c0 :: (t0 ++ (nlQ ind lvl ++ (']' :: rest))) := by
        rw [wsChar_run _ (nlQ_ws _ _), hel, List.cons_append, dropWs_cons_not hws0]
      have hasm : c0 :: (t0 ++ (nlQ ind lvl ++ (']' :: rest)))
          = dumpElems ind (lvl + 1) x xs ++ (nlQ ind lvl ++ (']' :: rest)) := by
        rw [hel]
        rfl
      rw [harg]
      simp only [parseVal, dropWs_cons_not (by decide : wsChar '[' = false), hdrop]
      rw [if_neg hbr0, hasm, rt_elems x xs ind (lvl + 1) f (nlQ ind lvl) rest hfe (nlQ_ws _ _)]
      rfl
  | .obj [], ind, lvl, fuel, rest, hf, _ => by
    cases fuel with
    | zero => exact (Nat.not_lt_zero _ hf).elim
    | succ f => simp [dumpVal, parseVal, dropWs, wsChar]
  | .obj ((k, v) :: fs), ind, lvl, fuel, rest, hf, _ => by
    cases fuel with
    | zero => exact (Nat.not_lt_zero _ hf).elim
    | succ f =>
      obtain ⟨ft, hfl⟩ := dumpFields_shape ind (lvl + 1) k v fs
      have hff : (dumpFields ind (lvl + 1) k v fs).length + 1 < f := by
        simp only [dumpVal, List.length_cons, List.length_append,
          List.length_singleton] at hf
        omega
      have harg : dumpVal ind lvl (.obj ((k, v) :: fs)) ++ rest
          = '{' :: (nlQ ind (lvl + 1)
              ++ (dumpFields ind (lvl + 1) k v fs ++ (nlQ ind lvl ++ ('}' :: rest)))) := by
        simp [dumpVal]
      have hdrop : dropWs (nlQ ind (lvl + 1)
            ++ (dumpFields ind (lvl + 1) k v fs ++ (nlQ ind lvl ++ ('}' :: rest))))
          = '"' :: (ft ++ (nlQ ind lvl ++ ('}' :: rest))) := by
        rw [wsChar_run _ (nlQ_ws _ _), hfl, List.cons_append,
          dropWs_cons_not (by decide : wsChar '"' = false)]
      have hasm : '"' :: (ft ++ (nlQ ind lvl ++ ('}' :: rest)))
          = dumpFields ind (lvl + 1) k v fs ++ (nlQ ind lvl ++ ('}' :: rest)) := by
        rw [hfl]
        rfl
      rw [harg]
      simp only [parseVal, dropWs_cons_not (by decide : wsChar '{' = false), hdrop]
      rw [if_neg (by decide : ¬('"' = '}')), hasm,
        rt_fields k v fs ind (lvl + 1) f (nlQ ind lvl) rest hff (nlQ_ws _ _)]
      rfl
  termination_by j _ _ _ _ _ _ => sizeOf j

theorem rt_elems : ∀ (x : Json) (xs : List Json) (ind : Option Nat) (lvl fuel : Nat)
    (ws rest : List Char),
    (dumpElems ind lvl x xs).length + 1 < fuel → (∀ c ∈ ws, wsChar c = true) →
    parseElems fuel (dumpElems ind lvl x xs ++ (ws ++ (']' :: rest))) = some (x :: xs, rest)
  | x, [], ind, lvl, fuel, ws, rest, hf, hws => by
    cases fuel with
    | zero => exact (Nat.not_lt_zero _ hf).elim
    | succ f =>
      have htrail : numStop (ws ++ (']' :: rest)) := by
        cases ws with
        | nil => exact Or.inr ⟨']', rest, rfl, by decide⟩
        | cons w wt =>
          exact Or.inr ⟨w, wt ++ (']' :: rest), rfl, wsChar_not_digit w (hws w (by simp))⟩
      have hlen : (dumpVal ind lvl x).length < f := by
        simp only [dumpElems] at hf
        omega
      simp only [dumpElems, parseElems]
      rw [rt_val x ind lvl f _ hlen htrail]
      simp only [Option.bind_eq_bind, Option.some_bind]
      rw [show dropWs (ws ++ (']' :: rest)) = ']' :: rest from by
        rw [wsChar_run ws hws, dropWs_cons_not (by decide : wsChar ']' = false)]]
      rfl
  | x, y :: ys, ind, lvl, fuel, ws, rest, hf, hws => by
    cases fuel with
    | zero => exact (Nat.not_lt_zero _ hf).elim
    | succ f =>
      have htrail : numStop (ws ++ (']' :: rest)) := by
        cases ws with
        | nil => exact Or.inr ⟨']', rest, rfl, by decide⟩
        | cons w wt =>
          exact Or.inr ⟨w, wt ++ (']' :: rest), rfl, wsChar_not_digit w (hws w (by simp))⟩
      obtain ⟨wt, hsep, hwt⟩ := sepQ_shape ind lvl
      have hx1 := dumpVal_len_pos ind lvl x
      have hsl := sepQ_len ind lvl
      have h1 : (dumpVal ind lvl x).length < f := by
        simp only [dumpElems, List.length_append] at hf
        omega
      have h2 : (dumpElems ind lvl y ys).length + 1 < f := by
        simp only [dumpElems, List.length_append] at hf
        omega
      have harg : dumpElems ind lvl x (y :: ys) ++ (ws ++ (']' :: rest))
          = dumpVal ind lvl x
            ++ (sepQ ind lvl ++ (dumpElems ind lvl y ys ++ (ws ++ (']' :: rest)))) := by
        simp [dumpElems]
      have hstop : numStop (sepQ ind lvl
          ++ (dumpElems ind lvl y ys ++ (ws ++ (']' :: rest)))) := by
        rw [hsep]
        exact Or.inr ⟨',', wt ++ (dumpElems ind lvl y ys ++ (ws ++ (']' :: rest))), rfl,
          by decide⟩
      rw [harg]
      simp only [parseElems]
      rw [rt_val x ind lvl f _ h1 hstop]
      simp only [Option.bind_eq_bind, Option.some_bind]
      rw [show dropWs (sepQ ind lvl ++ (dumpElems ind lvl y ys ++ (ws ++ (']' :: rest))))
          = ',' :: (wt ++ (dumpElems ind lvl y ys ++ (ws ++ (']' :: rest)))) from by
        rw [hsep, List.cons_append, dropWs_cons_not (by decide : wsChar ',' = false)]]
      show (parseElems f (wt ++ (dumpElems ind lvl y ys ++ (ws ++ (']' :: rest))))).map
          (fun q => (x :: q.1, q.2)) = some (x :: y :: ys, rest)
      rw [parseElems_ws f wt _ hwt, rt_elems y ys ind lvl f ws rest h2 hws]
      rfl
  termination_by x xs _ _ _ _ _ _ _ => sizeOf x + sizeOf xs

theorem rt_fields : ∀ (k : String) (v : Json) (fs : List (String × Json)) (ind : Option Nat)
    (lvl fuel : Nat) (ws rest : List Char),
    (dumpFields ind lvl k v fs).length + 1 < fuel → (∀ c ∈ ws, wsChar c = true) →
    parseFields fuel (dumpFields ind lvl k v fs ++ (ws ++ ('}' :: rest)))
      = some ((k, v) :: fs, rest)
  | k, v, [], ind, lvl, fuel, ws, rest, hf, hws => by
    cases fuel with
    | zero => exact (Nat.not_lt_zero _ hf).elim
    | succ f =>
      have htrail : numStop (ws ++ ('}' :: rest)) := by
        cases ws with
        | nil => exact Or.inr ⟨'}', rest, rfl, by decide⟩
        | cons w wt =>
          exact Or.inr ⟨w, wt ++ ('}' :: rest), rfl, wsChar_not_digit w (hws w (by simp))⟩
      have hsp : ∀ c ∈ [' '], wsChar c = true := by
        intro c hc
        simp at hc
        subst hc
        rfl
      have hlen : (dumpVal ind lvl v).length < f := by
        simp only [dumpFields, List.length_cons, List.length_append] at hf
        omega
      have harg : dumpFields ind lvl k v [] ++ (ws ++ ('}' :: rest))
          = '"' :: (escape k.toList
              ++ ('"' :: (':' :: (' ' :: (dumpVal ind lvl v ++ (ws ++ ('}' :: rest))))))) := by
        simp [dumpFields]
      rw [harg]
      simp only [parseFields, dropWs_cons_not (by decide : wsChar '"' = false)]
      rw [parseStrBody_escape]
      simp only [Option.bind_eq_bind, Option.some_bind]
      rw [show dropWs (':' :: (' ' :: (dumpVal ind lvl v ++ (ws ++ ('}' :: rest)))))
          = ':' :: (' ' :: (dumpVal ind lvl v ++ (ws ++ ('}' :: rest)))) from
        dropWs_cons_not (by decide)]
      show (do
        let p ← parseVal f (' ' :: (dumpVal ind lvl v ++ (ws ++ ('}' :: rest))))
        match dropWs p.2 with
        | ',' :: r3 =>
            (parseFields f r3).map (fun q => ((String.mk k.toList, p.1) :: q.1, q.2))
        | '}' :: r3 => some ([(String.mk k.toList, p.1)], r3)
        | _ => none) = some ([(k, v)], rest)
      rw [show (' ' :: (dumpVal ind lvl v ++ (ws ++ ('}' :: rest))))
          = [' '] ++ (dumpVal ind lvl v ++ (ws ++ ('}' :: rest))) from rfl,
        parseVal_ws f [' '] _ hsp, rt_val v ind lvl f _ hlen htrail]
      simp only [Option.bind_eq_bind, Option.some_bind]
      rw [show dropWs (ws ++ ('}' :: rest)) = '}' :: rest from by
        rw [wsChar_run ws hws, dropWs_cons_not (by decide : wsChar '}' = false)]]
      simp [mk_toList]
  | k, v, (k2, v2) :: gs, ind, lvl, fuel, ws, rest, hf, hws => by
    cases fuel with
    | zero => exact (Nat.not_lt_zero _ hf).elim
    | succ f =>
      have htrail : numStop (ws ++ ('}' :: rest)) := by
        cases ws with
        | nil => exact Or.inr ⟨'}', rest, rfl, by decide⟩
        | cons w wt =>
          exact Or.inr ⟨w, wt ++ ('}' :: rest), rfl, wsChar_not_digit w (hws w (by simp))⟩
      have hsp : ∀ c ∈ [' '], wsChar c = true := by
        intro c hc
        simp at hc
        subst hc
        rfl
      obtain ⟨wt, hsep, hwt⟩ := sepQ_shape ind lvl
      have hv1 := dumpVal_len_pos ind lvl v
      have hsl := sepQ_len ind lvl
      have h1 : (dumpVal ind lvl v).length < f := by
        simp only [dumpFields, List.length_cons, List.length_append] at hf
        omega
      have h2 : (dumpFields ind lvl k2 v2 gs).length + 1 < f := by
        simp only [dumpFields, List.length_cons, List.length_append] at hf
        omega
      have harg : dumpFields ind lvl k v ((k2, v2) :: gs) ++ (ws ++ ('}' :: rest))
          = '"' :: (escape k.toList
              ++ ('"' :: (':' :: (' ' :: (dumpVal ind lvl v
                  ++ (sepQ ind lvl
                      ++ (dumpFields ind lvl k2 v2 gs ++ (ws ++ ('}' :: rest))))))))) := by
        simp [dumpFields]
      have hstop : numStop (sepQ ind lvl
          ++ (dumpFields ind lvl k2 v2 gs ++ (ws ++ ('}' :: rest)))) := by
        rw [hsep]
        exact Or.inr ⟨',', wt ++ (dumpFields ind lvl k2 v2 gs ++ (ws ++ ('}' :: rest))), rfl,
          by decide⟩
      rw [harg]
      simp only [parseFields, dropWs_cons_not (by decide : wsChar '"' = false)]
      rw [parseStrBody_escape]
      simp only [Option.bind_eq_bind, Option.some_bind]
      rw [show dropWs (':' :: (' ' :: (dumpVal ind lvl v
            ++ (sepQ ind lvl ++ (dumpFields ind lvl k2 v2 gs ++ (ws ++ ('}' :: rest)))))))
          = ':' :: (' ' :: (dumpVal ind lvl v
            ++ (sepQ ind lvl ++ (dumpFields ind lvl k2 v2 gs ++ (ws ++ ('}' :: rest))))))
        from dropWs_cons_not (by decide)]
      show (do
        let p ← parseVal f (' ' :: (dumpVal ind lvl v
            ++ (sepQ ind lvl ++ (dumpFields ind lvl k2 v2 gs ++ (ws ++ ('}' :: rest))))))
        match dropWs p.2 with
        | ',' :: r3 =>
            (parseFields f r3).map (fun q => ((String.mk k.toList, p.1) :: q.1, q.2))
        | '}' :: r3 => some ([(String.mk k.toList, p.1)], r3)
        | _ => none) = some ((k, v) :: (k2, v2) :: gs, rest)
      rw [show (' ' :: (dumpVal ind lvl v
            ++ (sepQ ind lvl ++ (dumpFields ind lvl k2 v2 gs ++ (ws ++ ('}' :: rest))))))
          = [' '] ++ (dumpVal ind lvl v
            ++ (sepQ ind lvl ++ (dumpFields ind lvl k2 v2 gs ++ (ws ++ ('}' :: rest)))))
        from rfl,
        parseVal_ws f [' '] _ hsp, rt_val v ind lvl f _ h1 hstop]
      simp only [Option.bind_eq_bind, Option.some_bind]
      rw [show dropWs (sepQ ind lvl
            ++ (dumpFields ind lvl k2 v2 gs ++ (ws ++ ('}' :: rest))))
          = ',' :: (wt ++ (dumpFields ind lvl k2 v2 gs ++ (ws ++ ('}' :: rest)))) from by
        rw [hsep, List.cons_append, dropWs_cons_not (by decide : wsChar ',' = false)]]
      show (parseFields f (wt ++ (dumpFields ind lvl k2 v2 gs ++ (ws ++ ('}' :: rest))))).map
          (fun q => ((String.mk k.toList, v) :: q.1, q.2))
          = some ((k, v) :: (k2, v2) :: gs, rest)
      rw [parseFields_ws f wt _ hwt, rt_fields k2 v2 gs ind lvl f ws rest h2 hws]
      simp [mk_toList]
  termination_by _ v fs _ _ _ _ _ _ _ => sizeOf v + sizeOf fs

end

/-- Parsing any dumped value (either separator style) recovers it. -/
theorem loads_dumpVal (ind : Option Nat) (j : Json) :
    loads (String.mk (dumpVal ind 0 j)) = some j := by
  have h := rt_val j ind 0 ((dumpVal ind 0 j).length + 1) [] (by omega) (Or.inl rfl)
  rw [List.append_nil] at h
  rw [loads]
  rw [show (String.mk (dumpVal ind 0 j)).toList = dumpVal ind 0 j from rfl, h]
  rfl

/-- Round-trip for the pretty-printed write path. -/
theorem loads_dumps (data : Json) : loads (dumps data) = some data :=
  loads_dumpVal (some 2) data

/-- Round-trip for the compact default-write path. -/
theorem loads_dumpCompact (data : Json) : loads (dumpCompact data) = some data :=
  loads_dumpVal none data

/-! ### The local filesystem and the local-file backend

`_local_read_json` / `_local_write_json` (app.py lines 75-97).  The
filesystem is a map from path to file text plus the set of directories
`os.makedirs` has created.  Local file I/O is modelled as succeeding except
in `_local_write_json`, where the `ioOk` parameter injects the `except`
branch (lines 95-97): the exception is raised before the file content is
replaced, `st.error` is shown and `False` is returned with the filesystem
unchanged. -/

structure LocalFs where
  files : String → Option String
  dirs : String → Bool

/-- Model of `os.path.dirname`: the characters before the last `/`
(empty when there is no `/`; the app only passes `data/\x2a.json` paths). -/
def dirname (p : String) : String :=
  String.mk ((((p.toList.reverse).dropWhile (fun c => c ≠ '/')).drop 1).reverse)

/-- Model of `os.makedirs(d, exist_ok=True)` (intermediate parents of the
app's single-level `data` directory are the directory itself). -/
def osMakedirs (fs : LocalFs) (d : String) : LocalFs :=
  { fs with dirs := fun q => if q = d then true else fs.dirs q }

/-- Replace (or create) one file's text. -/
def setFile (fs : LocalFs) (p content : String) : LocalFs :=
  { fs with files := fun q => if q = p then some content else fs.files q }

/-- Model of `_local_write_json` (lines 87-97): `os.makedirs` on the parent,
then the file is replaced with `json.dumps(data, ensure_ascii=False,
indent=2)`; returns `True`, or `False` with the filesystem unchanged when
the I/O fails (`ioOk = false`).  The cache-clearing calls have no effect in
the model (reads always hit the filesystem). -/
def _local_write_json (fs : LocalFs) (path : String) (data : Json) (ioOk : Bool) :
    Bool × LocalFs :=
  if ioOk then
    (true, setFile (osMakedirs fs (dirname path)) path (dumps data))
  else (false, fs)

/-- Model of `_local_read_json` (lines 75-84): when the file does not exist,
create the parent directory and write `json.dump(default, f)` (compact
separators); then open the file and `json.load` it, returning
`(default, None)` when parsing fails (the `except` branch). -/
def _local_read_json (fs : LocalFs) (path : String) (default : Json) :
    (Json × Option String) × LocalFs :=
  let fs1 :=
    if (fs.files path).isNone then
      setFile (osMakedirs fs (dirname path)) path (dumpCompact default)
    else fs
  match fs1.files path with
  | some content =>
      match loads content with
      | some v => ((v, none), fs1)
      | none => ((default, none), fs1)
  | none => ((default, none), fs1)

/-- `read_store` with GitHub not configured (line 101-104). -/
def read_store (fs : LocalFs) (path : String) (default : Json) :
    (Json × Option String) × LocalFs :=
  _local_read_json fs path default

/-- `write_store` with GitHub not configured (line 107-110): the revision
argument is accepted and ignored by the local backend. -/
def write_store (fs : LocalFs) (path : String) (data : Json)
    (_sha : Option String) (ioOk : Bool) : Bool × LocalFs :=
  _local_write_json fs path data ioOk

/-- Paths of the two persisted documents (lines 26-27). -/
def ITEMS_PATH : String := "data/items.json"

def THREADS_PATH : String := "data/threads.json"

/-! ### Python dict operations on stored JSON objects

The handlers operate on the loaded documents as Python dicts; these model
subscription, `get` with default, and assignment (which updates an existing
key in place, keeping insertion order, or appends a new key). -/

/-- Dict lookup: value of the (first) binding of `key`, if present. -/
def getField : List (String × Json) → String → Option Json
  | [], _ => none
  | (k, v) :: rest, key => if k = key then some v else getField rest key

/-- Dict assignment `d[key] = v`. -/
def setField : List (String × Json) → String → Json → List (String × Json)
  | [], key, v => [(key, v)]
  | (k, w) :: rest, key, v =>
      if k = key then (key, v) :: rest else (k, w) :: setField rest key v

/-- Python `int(x)` on a loaded JSON value: ints pass through, booleans
become 0/1, decimal strings (with optional sign and surrounding blanks)
parse; anything else raises (`none`).  Floats are outside the model. -/
def pyInt : Json → Option Int
  | .int n => some n
  | .bool b => some (if b then 1 else 0)
  | .str s =>
      let l := ((s.toList.dropWhile (fun c => wsChar c)).reverse.dropWhile
        (fun c => wsChar c)).reverse
      match l with
      | '-' :: ds =>
          if ds ≠ [] ∧ ds.all (fun c => c.isDigit) then some (-(natVal ds : Int)) else none
      | '+' :: ds =>
          if ds ≠ [] ∧ ds.all (fun c => c.isDigit) then some ((natVal ds : Int)) else none
      | ds =>
          if ds ≠ [] ∧ ds.all (fun c => c.isDigit) then some ((natVal ds : Int)) else none
  | _ => none

/-- Python `==` between a stored `id` value and the clicked row's id string
(ids are strings in the schema; a non-string stored value compares
unequal). -/
def jsonEqStr (v : Json) (s : String) : Bool :=
  match v with
  | .str t => t == s
  | _ => false

theorem getField_setField_self (f : List (String × Json)) (key : String) (v : Json) :
    getField (setField f key v) key = some v := by
  induction f with
  | nil => simp [getField, setField]
  | cons kv rest ih =>
    obtain ⟨k, w⟩ := kv
    by_cases h : k = key
    · simp [getField, setField, h]
    · simp [getField, setField, h, ih]

theorem getField_setField_ne (f : List (String × Json)) (key key2 : String) (v : Json)
    (h : key2 ≠ key) : getField (setField f key v) key2 = getField f key2 := by
  have h1 : ¬(key = key2) := fun hh => h hh.symm
  induction f with
  | nil => simp [getField, setField, h1]
  | cons kv rest ih =>
    obtain ⟨k, w⟩ := kv
    by_cases hk : k = key
    · subst hk
      simp [getField, setField, h1]
    · simp only [setField, if_neg hk, getField]
      by_cases hk2 : k = key2 <;> simp [hk2, ih]

/-! ### The upvote handler (app.py lines 253-263)

The button handler walks the in-memory `items` list, increments `upvotes`
of the first dict whose `id` equals the clicked row's id, stamps
`updated_at` with a fresh `ts()`, breaks, and writes the whole collection
back through `write_store`.  Dict subscription of a missing `id` key or
`int()` of an unconvertible value raises, which aborts the script run
(`none`). -/

def upvoteItems (rid now : String) : List Json → Option (List Json)
  | [] => some []
  | it :: rest =>
    match it with
    | .obj fields =>
      match getField fields "id" with
      | none => none
      | some v =>
        if jsonEqStr v rid then
          match pyInt ((getField fields "upvotes").getD (.int 0)) with
          | none => none
          | some n =>
              some (.obj (setField (setField fields "upvotes" (.int (n + 1)))
                "updated_at" (.str now)) :: rest)
        else (upvoteItems rid now rest).map (it :: ·)
    | _ => none

/-- The handler applied `N` times in sequence, one `ts()` reading per
application. -/
def upvoteItemsN (rid : String) : List String → List Json → Option (List Json)
  | [], items => some items
  | t :: ts2, items => (upvoteItems rid t items).bind (upvoteItemsN rid ts2)

/-- One full upvote interaction against the local store: the script run
reads `items` (line 179), coerces a non-list document to `[]`
(lines 184-185), the handler increments and `write_store` persists
(lines 253-260).  Returns the filesystem afterwards and the `ok` flag the
handler checks, or `none` when the handler raises. -/
def upvoteInteraction (fs : LocalFs) (rid now : String) (ioOk : Bool) :
    Option (LocalFs × Bool) :=
  let r := read_store fs ITEMS_PATH (.arr [])
  let items := match r.1.1 with | .arr l => l | _ => []
  (upvoteItems rid now items).map (fun items2 =>
    let w := write_store r.2 ITEMS_PATH (.arr items2) r.1.2 ioOk
    (w.2, w.1))

/-- Hypotheses describing an item list in which the clicked id occurs first
at the `.obj fo` position: every earlier dict has a non-matching `id`. -/
def upvoteCtx (rid : String) (pre : List Json) (fo : List (String × Json)) (u : Int) : Prop :=
  (∀ x ∈ pre, ∃ fx vx, x = Json.obj fx ∧ getField fx "id" = some vx ∧ jsonEqStr vx rid = false)
  ∧ getField fo "id" = some (.str rid) ∧ getField fo "upvotes" = some (.int u)

/-- The updated first-matching item dict. -/
def bumpItem (fo : List (String × Json)) (u : Int) (now : String) : List (String × Json) :=
  setField (setField fo "upvotes" (.int (u + 1))) "updated_at" (.str now)

theorem upvoteItems_found (rid now : String) (pre : List Json) (fo : List (String × Json))
    (post : List Json) (u : Int) (hctx : upvoteCtx rid pre fo u) :
    upvoteItems rid now (pre ++ .obj fo :: post)
      = some (pre ++ .obj (bumpItem fo u now) :: post) := by
  obtain ⟨hpre, hid, hup⟩ := hctx
  induction pre with
  | nil =>
    simp only [List.nil_append, upvoteItems, hid, hup]
    rw [show jsonEqStr (.str rid) rid = true from by simp [jsonEqStr]]
    simp [pyInt, bumpItem]
  | cons x xs ih =>
    obtain ⟨fx, vx, hx, hfx, hvx⟩ := hpre x (by simp)
    subst hx
    have hrec := ih (fun y hy => hpre y (by simp [hy]))
    simp [List.cons_append, upvoteItems, hfx, hvx, hrec]

/-- The bumped dict keeps its `id` and carries the incremented counter and
the fresh `updated_at`; all other keys are untouched. -/
theorem bumpItem_spec (fo : List (String × Json)) (u : Int) (now : String) :
    getField (bumpItem fo u now) "id" = getField fo "id"
    ∧ getField (bumpItem fo u now) "upvotes" = some (.int (u + 1))
    ∧ getField (bumpItem fo u now) "updated_at" = some (.str now)
    ∧ ∀ key, key ≠ "upvotes" → key ≠ "updated_at" →
        getField (bumpItem fo u now) key = getField fo key := by
  refine ⟨?_, ?_, ?_, ?_⟩
  · rw [bumpItem, getField_setField_ne _ _ _ _ (by decide),
      getField_setField_ne _ _ _ _ (by decide)]
  · rw [bumpItem, getField_setField_ne _ _ _ _ (by decide), getField_setField_self]
  · rw [bumpItem, getField_setField_self]
  · intro key h1 h2
    rw [bumpItem, getField_setField_ne _ _ _ _ h2, getField_setField_ne _ _ _ _ h1]

/-! ### Typed data model

The schemas documented at app.py lines 114-136.  `by` and `at` are Lean
keywords, so those fields carry a trailing underscore.  `upvotes` is an
`Int` (a Python int).  Timestamp fields hold the strings `ts()` returns;
each operation takes one parameter per `ts()` call site, in evaluation
order, because `datetime.utcnow()` is a fresh clock read each time. -/

structure Link where
  url : String
  by_ : String
  at_ : String
  note : String
deriving DecidableEq

structure Item where
  id : String
  title : String
  project_code : String
  work_type : String
  links : List Link
  tags : List String
  created_by : String
  created_at : String
  updated_at : String
  upvotes : Int
deriving DecidableEq

structure Post where
  id : String
  by_ : String
  at_ : String
  text : String
deriving DecidableEq

structure Thread where
  id : String
  title : String
  created_by : String
  created_at : String
  tags : List String
  posts : List Post
deriving DecidableEq

/-- Python `str.strip()` (ASCII whitespace; the app's inputs are form
text). -/
def pyStrip (s : String) : String :=
  String.mk (((s.toList.dropWhile (fun c => c.isWhitespace)).reverse.dropWhile
    (fun c => c.isWhitespace)).reverse)

/-- Python `str.split(",")` on the character list: `""` gives `[""]`,
adjacent commas give empty pieces. -/
def splitComma : List Char → List (List Char)
  | [] => [[]]
  | c :: rest =>
    if c = ',' then [] :: splitComma rest
    else
      match splitComma rest with
      | [] => [[c]]
      | p :: ps => (c :: p) :: ps

/-- The tag-list expression used by both creation forms (lines 310 and 347):
`[t.strip() for t in (raw.split(",") if raw else []) if t.strip()]`. -/
def pyTagSplit (raw : String) : List String :=
  (((if raw = "" then [] else (splitComma raw.toList).map String.mk).map pyStrip).filter
    (fun t => t ≠ ""))

/-- Result of one submit handler: persisted and confirmed, rejected by
validation (`st.error` / `st.warning`, nothing written), or a failed
`write_store` (error shown, no success state). -/
inductive Outcome where
  | ok
  | invalid
  | writeFailed
deriving DecidableEq

/-- The link dict literal, as built both by `save_link` (lines 271-276)
and by the create-item form's initial link (lines 317-322): the given URL
stripped, the current actor, one `ts()` reading, and the stripped optional
note. -/
def mkLink (url note user t : String) : Link :=
  { url := pyStrip url
    by_ := user
    at_ := t
    note := if note ≠ "" then pyStrip note else "" }

/-- The post dict literal, as built both by the create-thread form
(line 349) and by the reply handler (lines 406-411): fresh uuid, current
actor, one `ts()` reading, stripped text. -/
def mkPost (pid user t text : String) : Post :=
  { id := pid
    by_ := user
    at_ := t
    text := pyStrip text }

/-! ### Create item (app.py lines 300-327) -/

/-- The `new_item` dict literal (lines 304-315) plus the optional initial
link (316-322).  `t1`, `t2`, `t3` are the successive `ts()` results:
`created_at`, then `updated_at`, then the link's `at`. -/
def mkNewItem (title project_code work_type tags_raw first_link note : String)
    (user uid t1 t2 t3 : String) : Item :=
  let base : Item := {
    id := uid
    title := pyStrip title
    project_code := pyStrip project_code
    work_type := pyStrip work_type
    links := []
    tags := pyTagSplit tags_raw
    created_by := user
    created_at := t1
    updated_at := t2
    upvotes := 0 }
  if first_link ≠ "" then
    { base with links := base.links ++ [mkLink first_link note user t3] }
  else base

/-- Validation (line 301: `if not title or not project_code or not
work_type`) followed by construction. -/
def createItem (title project_code work_type tags_raw first_link note : String)
    (user uid t1 t2 t3 : String) : Option Item :=
  if title = "" ∨ project_code = "" ∨ work_type = "" then none
  else some (mkNewItem title project_code work_type tags_raw first_link note user uid t1 t2 t3)

/-! ### Encoding the typed collections back to stored JSON (the dict
shapes the handlers build). -/

def encodeLink (l : Link) : Json :=
  .obj [("url", .str l.url), ("by", .str l.by_), ("at", .str l.at_), ("note", .str l.note)]

def encodeItem (it : Item) : Json :=
  .obj [("id", .str it.id), ("title", .str it.title), ("project_code", .str it.project_code),
    ("work_type", .str it.work_type), ("links", .arr (it.links.map encodeLink)),
    ("tags", .arr (it.tags.map Json.str)), ("created_by", .str it.created_by),
    ("created_at", .str it.created_at), ("updated_at", .str it.updated_at),
    ("upvotes", .int it.upvotes)]

def encodeItems (l : List Item) : Json := .arr (l.map encodeItem)

/-- The submit handler of the create-item form: on validation failure only
`st.error` runs (no write attempted); otherwise the item is appended and
the whole collection written through `write_store` with the revision from
the top-of-script read. -/
def newItemInteraction (fs : LocalFs) (items : List Item)
    (title project_code work_type tags_raw first_link note : String)
    (user uid t1 t2 t3 : String) (sha : Option String) (ioOk : Bool) : LocalFs × Outcome :=
  match createItem title project_code work_type tags_raw first_link note user uid t1 t2 t3 with
  | none => (fs, .invalid)
  | some it =>
      let w := write_store fs ITEMS_PATH (encodeItems (items ++ [it])) sha ioOk
      (w.2, if w.1 then .ok else .writeFailed)

/-! ### Add link (app.py lines 264-284) -/

/-- The `save_link` loop: append a link dict to the first item whose id
matches the clicked row, stamp `updated_at`, break.  `t1` is the link's
`at` reading, `t2` the `updated_at` reading. -/
def addLink (rid url note user t1 t2 : String) : List Item → List Item
  | [] => []
  | it :: rest =>
    if it.id == rid then
      { it with links := it.links ++ [mkLink url note user t1], updated_at := t2 } :: rest
    else it :: addLink rid url note user t1 t2 rest

/-- The `save_link` button handler: an empty URL only shows the warning
`Informe a URL.` (nothing mutated, nothing written); otherwise the loop
runs and the collection is written. -/
def saveLinkInteraction (fs : LocalFs) (items : List Item)
    (rid url note user t1 t2 : String) (sha : Option String) (ioOk : Bool) :
    LocalFs × Outcome :=
  if url ≠ "" then
    let w := write_store fs ITEMS_PATH
      (encodeItems (addLink rid url note user t1 t2 items)) sha ioOk
    (w.2, if w.1 then .ok else .writeFailed)
  else (fs, .invalid)

/-! ### Create thread (app.py lines 338-356) -/

/-- The thread dict literal (lines 342-351): `t1` is `created_at`, `t2`
the initial post's `at`. -/
def mkNewThread (t_title t_tags t_first user tid pid t1 t2 : String) : Thread :=
  { id := tid
    title := pyStrip t_title
    created_by := user
    created_at := t1
    tags := pyTagSplit t_tags
    posts := [mkPost pid user t2 t_first] }

/-- The publish handler: validation (line 339) then `threads.insert(0,
thread)` (line 352). -/
def publishThread (t_title t_tags t_first user tid pid t1 t2 : String)
    (threads : List Thread) : Option (List Thread) :=
  if t_title = "" ∨ t_first = "" then none
  else some (mkNewThread t_title t_tags t_first user tid pid t1 t2 :: threads)

/-! ### Reply to thread (app.py lines 402-416) -/

/-- The reply loop: append a post dict to the first thread with the
clicked id, break.  No validation: an empty reply is appended as-is. -/
def replyToThreads (tid text user pid now : String) : List Thread → List Thread
  | [] => []
  | th :: rest =>
    if th.id == tid then
      { th with posts := th.posts ++ [mkPost pid user now text] } :: rest
    else th :: replyToThreads tid text user pid now rest

/-! ### The directory filter (app.py lines 204-220)

The free-text mask ORs `df["title"].str.lower().str.contains(q_lower)`,
the same for `project_code` and `work_type`, and a literal-substring test
over the tags (`q_lower in str(t).lower()`).  pandas `Series.str.contains`
treats its pattern as a *regular expression* (`regex=True` is the
default), so the query is a regex for the three columns but a literal for
tags.  The model covers regex patterns made of literal characters and `.`
(which matches any character except a newline); other metacharacters are
outside the model (`none`).  `str.lower()` is modelled on ASCII case (the
fold Lean's `Char.toLower` performs); `.astype(str)` is the identity on
the typed (string-valued) fields, and `na=False` has no effect because
typed items always carry their fields. -/

/-- Python `str.lower()` (ASCII fold). -/
def pyLower (s : String) : String := String.mk (s.toList.map Char.toLower)

/-- Python `needle in hay` substring test. -/
def listHas (needle : List Char) : List Char → Bool
  | [] => needle.isPrefixOf []
  | c :: cs => needle.isPrefixOf (c :: cs) || listHas needle cs

/-- Substring operator on strings (`q_lower in str(t).lower()`). -/
def strIn (needle hay : String) : Bool := listHas needle.toList hay.toList

/-- One token of the modelled regex fragment. -/
inductive RTok where
  | lit (c : Char)
  | dot
deriving DecidableEq

/-- Regex metacharacters of Python's `re` (a pattern containing any of
them other than `.` is outside the model). -/
def reMeta (c : Char) : Bool :=
  c = '.' || c = '^' || c = '$' || c = '*' || c = '+' || c = '?' || c = '(' || c = ')'
    || c = '[' || c = ']' || c = '{' || c = '}' || c = '|' || c = '\\'

/-- Compile a pattern of literal characters and `.` dots. -/
def reTokens : List Char → Option (List RTok)
  | [] => some []
  | c :: rest =>
    if c = '.' then (reTokens rest).map (RTok.dot :: ·)
    else if reMeta c then none
    else (reTokens rest).map (RTok.lit c :: ·)

/-- One token against one character (`.` does not match a newline without
`re.DOTALL`). -/
def tokMatch (t : RTok) (c : Char) : Bool :=
  match t with
  | .lit l => l == c
  | .dot => c != '\n'

/-- Token-wise match of a prefix of the input. -/
def matchHere : List RTok → List Char → Bool
  | [], _ => true
  | _ :: _, [] => false
  | t :: ts2, c :: cs => tokMatch t c && matchHere ts2 cs

/-- Python `re.search`: a match at some position of the input. -/
def reSearch (ts2 : List RTok) : List Char → Bool
  | [] => matchHere ts2 []
  | c :: cs => matchHere ts2 (c :: cs) || reSearch ts2 cs

/-- `Series.str.contains(pat, regex=True)` on one cell, for the modelled
pattern fragment. -/
def strContainsRe (pat hay : String) : Option Bool :=
  (reTokens pat.toList).map (fun ts2 => reSearch ts2 hay.toList)

/-- One row of the tab-1 mask (lines 207-219): free-text mask (regex over
lowered title / project_code / work_type, literal over tags), AND the
project-code filter, AND the work-type filter (`str.contains(·,
case=False)`, modelled by lowering pattern and cell — equivalent for
literal-and-dot patterns). -/
def itemRowMask (q code work_type : String) (it : Item) : Option Bool := do
  let mq ←
    if q = "" then some true
    else do
      let a ← strContainsRe (pyLower q) (pyLower it.title)
      let b ← strContainsRe (pyLower q) (pyLower it.project_code)
      let c ← strContainsRe (pyLower q) (pyLower it.work_type)
      some (a || b || c || it.tags.any (fun t => strIn (pyLower q) (pyLower t)))
  let mc ←
    if code = "" then some true
    else strContainsRe (pyLower code) (pyLower it.project_code)
  let mw ←
    if work_type = "" then some true
    else strContainsRe (pyLower work_type) (pyLower it.work_type)
  some (mq && mc && mw)

/-- The `df = df[mask]` row selection: keep the rows whose mask entry is
true, in order. -/
def filterItems (q code work_type : String) : List Item → Option (List Item)
  | [] => some []
  | it :: rest => do
    let b ← itemRowMask q code work_type it
    let r ← filterItems q code work_type rest
    some (if b then it :: r else r)

/-- The free-text criterion as the spec words it: `Q` is a case-insensitive
substring of title, project_code, work_type, or some tag.  Stated from the
spec for comparison against the pandas mask. -/
def specQMatch (q : String) (it : Item) : Bool :=
  strIn (pyLower q) (pyLower it.title) || strIn (pyLower q) (pyLower it.project_code)
    || strIn (pyLower q) (pyLower it.work_type)
    || it.tags.any (fun t => strIn (pyLower q) (pyLower t))

/-- The spec's full row criterion: free-text match AND the two substring
field filters, each skipped when empty. -/
def specRowPred (q code work_type : String) (it : Item) : Bool :=
  (q == "" || specQMatch q it)
    && (code == "" || strIn (pyLower code) (pyLower it.project_code))
    && (work_type == "" || strIn (pyLower work_type) (pyLower it.work_type))

/-! ### The regex fragment coincides with substring search on
metacharacter-free patterns. -/

theorem reTokens_lit (l : List Char) (h : ∀ c ∈ l, reMeta c = false) :
    reTokens l = some (l.map RTok.lit) := by
  induction l with
  | nil => rfl
  | cons c cs ih =>
    have hc := h c (by simp)
    have hdot : ¬(c = '.') := by
      intro hh
      subst hh
      simp [reMeta] at hc
    simp [reTokens, hdot, hc, ih (fun x hx => h x (by simp [hx]))]

theorem matchHere_lit (l : List Char) :
    ∀ s, matchHere (l.map RTok.lit) s = l.isPrefixOf s := by
  induction l with
  | nil => intro s; cases s <;> rfl
  | cons c cs ih =>
    intro s
    cases s with
    | nil => rfl
    | cons d ds => simp [matchHere, tokMatch, List.isPrefixOf, ih]

theorem reSearch_lit (l : List Char) :
    ∀ s, reSearch (l.map RTok.lit) s = listHas l s := by
  intro s
  induction s with
  | nil => simp [reSearch, listHas, matchHere_lit]
  | cons c cs ih => simp [reSearch, listHas, matchHere_lit, ih]

/-! ### Helper lemmas for the claim theorems -/

/-- The first-matching dict after `n` successive bumps, with the `ts()`
reading used at each step. -/
def bumpItemN (fo : List (String × Json)) (u : Int) : List String → List (String × Json)
  | [] => fo
  | t :: ts2 => bumpItemN (bumpItem fo u t) (u + 1) ts2

theorem upvoteCtx_bump (rid now : String) (pre : List Json) (fo : List (String × Json))
    (u : Int) (h : upvoteCtx rid pre fo u) : upvoteCtx rid pre (bumpItem fo u now) (u + 1) :=
  ⟨h.1, by rw [(bumpItem_spec fo u now).1]; exact h.2.1, (bumpItem_spec fo u now).2.1⟩

theorem upvoteItemsN_found (rid : String) (pre post : List Json) :
    ∀ (times : List String) (fo : List (String × Json)) (u : Int),
      upvoteCtx rid pre fo u →
      upvoteItemsN rid times (pre ++ .obj fo :: post)
        = some (pre ++ .obj (bumpItemN fo u times) :: post)
      ∧ getField (bumpItemN fo u times) "upvotes" = some (.int (u + times.length))
  | [], fo, u, hctx => by
    refine ⟨rfl, ?_⟩
    simpa using hctx.2.2
  | t :: ts2, fo, u, hctx => by
    have hstep := upvoteItems_found rid t pre fo post u hctx
    have hrec := upvoteItemsN_found rid pre post ts2 (bumpItem fo u t) (u + 1)
      (upvoteCtx_bump rid t pre fo u hctx)
    refine ⟨?_, ?_⟩
    · rw [upvoteItemsN, hstep]
      simp only [Option.some_bind]
      rw [hrec.1]
      rfl
    · rw [show bumpItemN fo u (t :: ts2) = bumpItemN (bumpItem fo u t) (u + 1) ts2 from rfl,
        hrec.2]
      simp only [List.length_cons]
      congr 2
      push_cast
      omega

theorem addLink_found (rid url note user t1 t2 : String) (pre post : List Item) (it : Item)
    (hpre : ∀ y ∈ pre, (y.id == rid) = false) (hit : it.id = rid) :
    addLink rid url note user t1 t2 (pre ++ it :: post)
      = pre ++ ({ it with links := it.links ++ [mkLink url note user t1],
                          updated_at := t2 }) :: post := by
  induction pre with
  | nil => simp [addLink, hit]
  | cons y ys ih =>
    have hy := hpre y (by simp)
    have hrec := ih (fun z hz => hpre z (by simp [hz]))
    simp [addLink, hy, hrec]

theorem replyToThreads_found (tid text user pid now : String) (pre post : List Thread)
    (th : Thread) (hpre : ∀ y ∈ pre, (y.id == tid) = false) (hth : th.id = tid) :
    replyToThreads tid text user pid now (pre ++ th :: post)
      = pre ++ ({ th with posts := th.posts ++ [mkPost pid user now text] }) :: post := by
  induction pre with
  | nil => simp [replyToThreads, hth]
  | cons y ys ih =>
    have hy := hpre y (by simp)
    have hrec := ih (fun z hz => hpre z (by simp [hz]))
    simp [replyToThreads, hy, hrec]

theorem strContainsRe_lit (pat hay : String) (h : ∀ c ∈ pat.toList, reMeta c = false) :
    strContainsRe pat hay = some (strIn pat hay) := by
  rw [strContainsRe, reTokens_lit _ h]
  simp [reSearch_lit, strIn]

theorem itemRowMask_lit (q code work_type : String) (it : Item)
    (hq : ∀ c ∈ (pyLower q).toList, reMeta c = false)
    (hcode : ∀ c ∈ (pyLower code).toList, reMeta c = false)
    (hwt : ∀ c ∈ (pyLower work_type).toList, reMeta c = false) :
    itemRowMask q code work_type it = some (specRowPred q code work_type it) := by
  by_cases hq0 : q = "" <;> by_cases hc0 : code = "" <;> by_cases hw0 : work_type = "" <;>
    simp [itemRowMask, specRowPred, specQMatch, hq0, hc0, hw0, beq_eq_decide,
      strContainsRe_lit _ _ hq, strContainsRe_lit _ _ hcode, strContainsRe_lit _ _ hwt]

theorem filterItems_lit (q code work_type : String) (items : List Item)
    (hq : ∀ c ∈ (pyLower q).toList, reMeta c = false)
    (hcode : ∀ c ∈ (pyLower code).toList, reMeta c = false)
    (hwt : ∀ c ∈ (pyLower work_type).toList, reMeta c = false) :
    filterItems q code work_type items
      = some (items.filter (specRowPred q code work_type)) := by
  induction items with
  | nil => rfl
  | cons it rest ih =>
    rw [filterItems, itemRowMask_lit q code work_type it hq hcode hwt]
    simp only [Option.bind_eq_bind, Option.some_bind, ih]
    simp [List.filter_cons]

/-! ## Claim theorems -/

/-- An empty local filesystem (no files, no directories). -/
def emptyFs : LocalFs := { files := fun _ => none, dirs := fun _ => false }

/-- C9: for the local-file backend, writing any JSON-representable
collection value to a document and then reading that document back yields
the written value (deep equality), a null revision, and no further
filesystem change. -/
theorem c9_local_write_read_roundtrip (fs : LocalFs) (path : String) (data dflt : Json)
    (sha : Option String) :
    read_store (write_store fs path data sha true).2 path dflt
      = ((data, none), (write_store fs path data sha true).2) := by
  have hfile : ((write_store fs path data sha true).2).files path = some (dumps data) := by
    simp [write_store, _local_write_json, setFile]
  simp [read_store, _local_read_json, hfile, loads_dumps]

/-- C10: a local read of a missing document is not side-effect-free: it
creates the parent directory, writes the compact-serialized default to the
file, and returns `(default, null revision)`; afterwards the file exists
and a second read loads it from disk, returning the same value with no
further change. -/
theorem c10_read_missing_writes_default (fs : LocalFs) (path : String) (dflt : Json)
    (h : fs.files path = none) :
    _local_read_json fs path dflt
      = ((dflt, none), setFile (osMakedirs fs (dirname path)) path (dumpCompact dflt))
    ∧ (setFile (osMakedirs fs (dirname path)) path (dumpCompact dflt)).files path
        = some (dumpCompact dflt)
    ∧ (setFile (osMakedirs fs (dirname path)) path (dumpCompact dflt)).dirs (dirname path)
        = true
    ∧ _local_read_json (setFile (osMakedirs fs (dirname path)) path (dumpCompact dflt))
        path dflt
      = ((dflt, none), setFile (osMakedirs fs (dirname path)) path (dumpCompact dflt)) := by
  have hfile : (setFile (osMakedirs fs (dirname path)) path (dumpCompact dflt)).files path
      = some (dumpCompact dflt) := by
    simp [setFile]
  refine ⟨?_, hfile, by simp [setFile, osMakedirs], ?_⟩
  · simp [_local_read_json, h, setFile, loads_dumpCompact]
  · simp [_local_read_json, hfile, loads_dumpCompact]

/-- C10 witness: reading `data/items.json` from an empty filesystem with
default `[]` creates the file and directory and returns the default; the
second read agrees. -/
theorem c10_witness :
    _local_read_json emptyFs ITEMS_PATH (.arr [])
      = (((.arr []), none),
        setFile (osMakedirs emptyFs (dirname ITEMS_PATH)) ITEMS_PATH (dumpCompact (.arr [])))
    ∧ (setFile (osMakedirs emptyFs (dirname ITEMS_PATH)) ITEMS_PATH
        (dumpCompact (.arr []))).files ITEMS_PATH = some (dumpCompact (.arr []))
    ∧ (setFile (osMakedirs emptyFs (dirname ITEMS_PATH)) ITEMS_PATH
        (dumpCompact (.arr []))).dirs (dirname ITEMS_PATH) = true
    ∧ _local_read_json (setFile (osMakedirs emptyFs (dirname ITEMS_PATH)) ITEMS_PATH
        (dumpCompact (.arr []))) ITEMS_PATH (.arr [])
      = (((.arr []), none),
        setFile (osMakedirs emptyFs (dirname ITEMS_PATH)) ITEMS_PATH (dumpCompact (.arr []))) :=
  c10_read_missing_writes_default emptyFs ITEMS_PATH (.arr []) rfl

/-- The filesystem after a successful upvote write: the parent directory
ensured and the items document replaced with the bumped collection. -/
def upvotedStoreFs (fs : LocalFs) (pre post : List Json) (fo : List (String × Json))
    (u : Int) (t1 : String) : LocalFs :=
  setFile (osMakedirs fs (dirname ITEMS_PATH)) ITEMS_PATH
    (dumps (.arr (pre ++ .obj (bumpItem fo u t1) :: post)))

/-- C1: two sequential upvote interactions on the same item where the
second `write_store` fails leave the stored document exactly as the first
(successful) write left it: the stored upvotes count reflects only the
first increment. -/
theorem c1_upvote_persistence_failure (fs : LocalFs) (rid t1 t2 : String)
    (pre post : List Json) (fo : List (String × Json)) (u : Int)
    (hstore : fs.files ITEMS_PATH = some (dumps (.arr (pre ++ .obj fo :: post))))
    (hctx : upvoteCtx rid pre fo u) :
    upvoteInteraction fs rid t1 true = some (upvotedStoreFs fs pre post fo u t1, true)
    ∧ upvoteInteraction (upvotedStoreFs fs pre post fo u t1) rid t2 false
        = some (upvotedStoreFs fs pre post fo u t1, false)
    ∧ (upvotedStoreFs fs pre post fo u t1).files ITEMS_PATH
        = some (dumps (.arr (pre ++ .obj (bumpItem fo u t1) :: post)))
    ∧ getField (bumpItem fo u t1) "upvotes" = some (.int (u + 1)) := by
  have hread : read_store fs ITEMS_PATH (.arr [])
      = ((.arr (pre ++ .obj fo :: post), none), fs) := by
    simp [read_store, _local_read_json, hstore, loads_dumps]
  have hfile2 : (upvotedStoreFs fs pre post fo u t1).files ITEMS_PATH
      = some (dumps (.arr (pre ++ .obj (bumpItem fo u t1) :: post))) := by
    simp [upvotedStoreFs, setFile]
  have hread2 : read_store (upvotedStoreFs fs pre post fo u t1) ITEMS_PATH (.arr [])
      = ((.arr (pre ++ .obj (bumpItem fo u t1) :: post), none),
        upvotedStoreFs fs pre post fo u t1) := by
    simp [read_store, _local_read_json, hfile2, loads_dumps]
  refine ⟨?_, ?_, hfile2, (bumpItem_spec fo u t1).2.1⟩
  · rw [upvoteInteraction]
    rw [hread]
    simp only
    rw [upvoteItems_found rid t1 pre fo post u hctx]
    simp [write_store, _local_write_json, upvotedStoreFs]
  · rw [upvoteInteraction]
    rw [hread2]
    simp only
    rw [upvoteItems_found rid t2 pre (bumpItem fo u t1) post (u + 1)
      (upvoteCtx_bump rid t1 pre fo u hctx)]
    simp [write_store, _local_write_json]

/-- A one-item stored collection for the C1 witness. -/
def c1Fs : LocalFs :=
  { files := fun p =>
      if p = ITEMS_PATH then some (dumps (.arr [.obj [("id", .str "a"), ("upvotes", .int 0)]]))
      else none
    dirs := fun _ => false }

/-- C1 witness: on a store holding one item with zero upvotes, a
successful upvote then a failed one leave the stored item at exactly one
upvote. -/
theorem c1_witness :
    upvoteInteraction c1Fs "a" "T1" true
      = some (upvotedStoreFs c1Fs [] [] [("id", .str "a"), ("upvotes", .int 0)] 0 "T1", true)
    ∧ upvoteInteraction (upvotedStoreFs c1Fs [] [] [("id", .str "a"), ("upvotes", .int 0)] 0 "T1")
        "a" "T2" false
      = some (upvotedStoreFs c1Fs [] [] [("id", .str "a"), ("upvotes", .int 0)] 0 "T1", false)
    ∧ (upvotedStoreFs c1Fs [] [] [("id", .str "a"), ("upvotes", .int 0)] 0 "T1").files ITEMS_PATH
      = some (dumps (.arr [.obj (bumpItem [("id", .str "a"), ("upvotes", .int 0)] 0 "T1")]))
    ∧ getField (bumpItem [("id", .str "a"), ("upvotes", .int 0)] 0 "T1") "upvotes"
      = some (.int 1) :=
  c1_upvote_persistence_failure c1Fs "a" "T1" "T2" [] [] [("id", .str "a"), ("upvotes", .int 0)] 0
    rfl ⟨by simp, rfl, rfl⟩

/-- C5: for an item present in the collection, one upvote increments its
`upvotes` by exactly 1 and stamps `updated_at`, leaving every other key
and every other item unchanged; `N` sequential upvotes (no upper bound, no
per-actor dedup) increase `upvotes` by exactly `N` and never decrease
it. -/
theorem c5_upvote_increments (rid now : String) (pre post : List Json)
    (fo : List (String × Json)) (u : Int) (hctx : upvoteCtx rid pre fo u) :
    upvoteItems rid now (pre ++ .obj fo :: post)
      = some (pre ++ .obj (bumpItem fo u now) :: post)
    ∧ getField (bumpItem fo u now) "upvotes" = some (.int (u + 1))
    ∧ getField (bumpItem fo u now) "updated_at" = some (.str now)
    ∧ (∀ key, key ≠ "upvotes" → key ≠ "updated_at" →
        getField (bumpItem fo u now) key = getField fo key)
    ∧ (∀ times : List String,
        upvoteItemsN rid times (pre ++ .obj fo :: post)
          = some (pre ++ .obj (bumpItemN fo u times) :: post)
        ∧ getField (bumpItemN fo u times) "upvotes" = some (.int (u + times.length))
        ∧ u ≤ u + times.length) := by
  obtain ⟨hid, hup, hts, hother⟩ := bumpItem_spec fo u now
  refine ⟨upvoteItems_found rid now pre fo post u hctx, hup, hts, hother, ?_⟩
  intro times
  obtain ⟨h1, h2⟩ := upvoteItemsN_found rid pre post times fo u hctx
  exact ⟨h1, h2, by omega⟩

/-- C5 witness: one upvote takes the stored counter from 0 to 1, and two
sequential upvotes take it to exactly 2. -/
theorem c5_witness :
    upvoteItems "a" "T1" [.obj [("id", .str "a"), ("upvotes", .int 0)]]
      = some [.obj (bumpItem [("id", .str "a"), ("upvotes", .int 0)] 0 "T1")]
    ∧ getField (bumpItem [("id", .str "a"), ("upvotes", .int 0)] 0 "T1") "upvotes"
      = some (.int 1)
    ∧ upvoteItemsN "a" ["T1", "T2"] [.obj [("id", .str "a"), ("upvotes", .int 0)]]
      = some [.obj (bumpItemN [("id", .str "a"), ("upvotes", .int 0)] 0 ["T1", "T2"])]
    ∧ getField (bumpItemN [("id", .str "a"), ("upvotes", .int 0)] 0 ["T1", "T2"]) "upvotes"
      = some (.int 2) := by
  have h := c5_upvote_increments "a" "T1" [] [] [("id", .str "a"), ("upvotes", .int 0)] 0
    ⟨by simp, rfl, rfl⟩
  exact ⟨h.1, h.2.1, (h.2.2.2.2 ["T1", "T2"]).1, by
    have := (h.2.2.2.2 ["T1", "T2"]).2.1
    simpa using this⟩

/-- C4: the create-item submit ends in a validation failure — reported to
the user, with no write attempted and the persisted store untouched —
exactly when `title`, `project_code` or `work_type` is empty; with all
three non-empty the handler proceeds to build and persist the item. -/
theorem c4_create_item_validation (fs : LocalFs) (items : List Item)
    (title project_code work_type tags_raw first_link note : String)
    (user uid t1 t2 t3 : String) (sha : Option String) (ioOk : Bool) :
    newItemInteraction fs items title project_code work_type tags_raw first_link note
        user uid t1 t2 t3 sha ioOk = (fs, Outcome.invalid)
      ↔ (title = "" ∨ project_code = "" ∨ work_type = "") := by
  by_cases hv : title = "" ∨ project_code = "" ∨ work_type = ""
  · simp [newItemInteraction, createItem, hv]
  · simp only [newItemInteraction, createItem, if_neg hv]
    constructor
    · intro h
      exfalso
      cases hok : (write_store fs ITEMS_PATH (encodeItems (items
          ++ [mkNewItem title project_code work_type tags_raw first_link note
            user uid t1 t2 t3])) sha ioOk).1 <;>
        simp [hok] at h
    · intro h
      exact absurd h hv

/-- C3 counterexample: a successful create whose two `ts()` readings
differ (the clock advanced between the `created_at` and `updated_at`
calls at lines 312-313) yields `updated_at ≠ created_at`, refuting the
claim that both always carry the same instant. -/
theorem c3_counterexample :
    (createItem "a" "b" "c" "" "" "" "u" "id1" "T1" "T2" "T3").map Item.created_at
      = some "T1"
    ∧ (createItem "a" "b" "c" "" "" "" "u" "id1" "T1" "T2" "T3").map Item.updated_at
      = some "T2"
    ∧ ("T1" : String) ≠ "T2" := by
  refine ⟨?_, ?_, by decide⟩ <;> rfl

/-- C3 (amended): a successful create yields the supplied fresh id,
`upvotes = 0`, `created_at` and `updated_at` set from the two successive
`ts()` readings in that order — equal exactly when those readings
coincide — and exactly one initial link (stamped with the third reading)
when a URL was supplied, none otherwise. -/
theorem c3_create_item_amended
    (title project_code work_type tags_raw first_link note user uid t1 t2 t3 : String)
    (h1 : title ≠ "") (h2 : project_code ≠ "") (h3 : work_type ≠ "") :
    createItem title project_code work_type tags_raw first_link note user uid t1 t2 t3
      = some (mkNewItem title project_code work_type tags_raw first_link note user uid t1 t2 t3)
    ∧ (mkNewItem title project_code work_type tags_raw first_link note
        user uid t1 t2 t3).upvotes = 0
    ∧ (mkNewItem title project_code work_type tags_raw first_link note
        user uid t1 t2 t3).id = uid
    ∧ (mkNewItem title project_code work_type tags_raw first_link note
        user uid t1 t2 t3).created_at = t1
    ∧ (mkNewItem title project_code work_type tags_raw first_link note
        user uid t1 t2 t3).updated_at = t2
    ∧ (t1 = t2 →
        (mkNewItem title project_code work_type tags_raw first_link note
          user uid t1 t2 t3).created_at
        = (mkNewItem title project_code work_type tags_raw first_link note
          user uid t1 t2 t3).updated_at)
    ∧ (first_link = "" →
        (mkNewItem title project_code work_type tags_raw first_link note
          user uid t1 t2 t3).links = [])
    ∧ (first_link ≠ "" →
        (mkNewItem title project_code work_type tags_raw first_link note
          user uid t1 t2 t3).links = [mkLink first_link note user t3]) := by
  have hv : ¬(title = "" ∨ project_code = "" ∨ work_type = "") := by
    intro h
    rcases h with h | h | h
    · exact h1 h
    · exact h2 h
    · exact h3 h
  refine ⟨by simp [createItem, hv], ?_, ?_, ?_, ?_, ?_, ?_, ?_⟩ <;>
    by_cases hl : first_link = "" <;> simp [mkNewItem, hl]

/-- C3 witness: a concrete valid create with distinct clock readings has
upvotes 0, the supplied id, the two readings in the two timestamp fields,
and exactly one initial link. -/
theorem c3_witness :
    createItem "a" "b" "c" "" "http" "n" "u" "id1" "T1" "T2" "T3"
      = some (mkNewItem "a" "b" "c" "" "http" "n" "u" "id1" "T1" "T2" "T3")
    ∧ (mkNewItem "a" "b" "c" "" "http" "n" "u" "id1" "T1" "T2" "T3").upvotes = 0
    ∧ (mkNewItem "a" "b" "c" "" "http" "n" "u" "id1" "T1" "T2" "T3").id = "id1"
    ∧ (mkNewItem "a" "b" "c" "" "http" "n" "u" "id1" "T1" "T2" "T3").created_at = "T1"
    ∧ (mkNewItem "a" "b" "c" "" "http" "n" "u" "id1" "T1" "T2" "T3").updated_at = "T2"
    ∧ (mkNewItem "a" "b" "c" "" "http" "n" "u" "id1" "T1" "T2" "T3").links
      = [mkLink "http" "n" "u" "T3"] := by
  have h := c3_create_item_amended "a" "b" "c" "" "http" "n" "u" "id1" "T1" "T2" "T3"
    (by decide) (by decide) (by decide)
  exact ⟨h.1, h.2.1, h.2.2.1, h.2.2.2.1, h.2.2.2.2.1, h.2.2.2.2.2.2.2 (by decide)⟩

/-- C6: with a non-empty title and non-empty first message, publishing a
thread prepends the new thread (index 0), the collection grows by exactly
one, and the new thread holds exactly one post carrying the trimmed first
message. -/
theorem c6_create_thread (t_title t_tags t_first user tid pid t1 t2 : String)
    (threads : List Thread) (h1 : t_title ≠ "") (h2 : t_first ≠ "") :
    publishThread t_title t_tags t_first user tid pid t1 t2 threads
      = some (mkNewThread t_title t_tags t_first user tid pid t1 t2 :: threads)
    ∧ (mkNewThread t_title t_tags t_first user tid pid t1 t2 :: threads).length
      = threads.length + 1
    ∧ (mkNewThread t_title t_tags t_first user tid pid t1 t2 :: threads).head?
      = some (mkNewThread t_title t_tags t_first user tid pid t1 t2)
    ∧ (mkNewThread t_title t_tags t_first user tid pid t1 t2).posts
      = [mkPost pid user t2 t_first] := by
  have hv : ¬(t_title = "" ∨ t_first = "") := by
    intro h
    rcases h with h | h
    · exact h1 h
    · exact h2 h
  exact ⟨by simp [publishThread, hv], by simp, rfl, rfl⟩

/-- C6 witness: the spec's scenario thread, published onto a one-thread
collection. -/
theorem c6_witness :
    publishThread "Drenagem atraso" "" "Precisamos de revisao" "u" "tid" "pid" "T1" "T2"
        [{ id := "t0", title := "x", created_by := "v", created_at := "T0", tags := [],
           posts := [] }]
      = some (mkNewThread "Drenagem atraso" "" "Precisamos de revisao" "u" "tid" "pid" "T1" "T2"
          :: [{ id := "t0", title := "x", created_by := "v", created_at := "T0", tags := [],
                posts := [] }])
    ∧ (mkNewThread "Drenagem atraso" "" "Precisamos de revisao" "u" "tid" "pid" "T1" "T2"
          :: [{ id := "t0", title := "x", created_by := "v", created_at := "T0", tags := [],
                posts := [] }]).length
      = [({ id := "t0", title := "x", created_by := "v", created_at := "T0", tags := [],
            posts := [] } : Thread)].length + 1
    ∧ (mkNewThread "Drenagem atraso" "" "Precisamos de revisao" "u" "tid" "pid" "T1" "T2").posts
      = [mkPost "pid" "u" "T2" "Precisamos de revisao"] := by
  have h := c6_create_thread "Drenagem atraso" "" "Precisamos de revisao" "u" "tid" "pid"
    "T1" "T2"
    [{ id := "t0", title := "x", created_by := "v", created_at := "T0", tags := [], posts := [] }]
    (by decide) (by decide)
  exact ⟨h.1, h.2.1, h.2.2.2⟩

/-- C7: invoking the save-link handler with an empty URL reports a
validation warning and changes nothing (no item touched, nothing
written); with a non-empty URL the located item gets exactly one link
appended — carrying the current actor and the `ts()` reading — its
`updated_at` is stamped with the second reading, and every other item is
unchanged. -/
theorem c7_add_link (fs : LocalFs) (pre post : List Item) (it : Item)
    (rid url note user t1 t2 : String) (sha : Option String) (ioOk : Bool)
    (hpre : ∀ y ∈ pre, (y.id == rid) = false) (hit : it.id = rid) :
    (url = "" →
      saveLinkInteraction fs (pre ++ it :: post) rid url note user t1 t2 sha ioOk
        = (fs, Outcome.invalid))
    ∧ (url ≠ "" →
      addLink rid url note user t1 t2 (pre ++ it :: post)
        = pre ++ ({ it with links := it.links ++ [mkLink url note user t1],
                            updated_at := t2 }) :: post) := by
  constructor
  · intro h
    simp [saveLinkInteraction, h]
  · intro h
    exact addLink_found rid url note user t1 t2 pre post it hpre hit

/-- A concrete directory item used by the C7 witness. -/
def c7Item : Item :=
  { id := "a"
    title := "t"
    project_code := "p"
    work_type := "w"
    links := []
    tags := []
    created_by := "u"
    created_at := "T0"
    updated_at := "T0"
    upvotes := 0 }

/-- C7 witness: the empty-URL branch leaves an example store untouched,
and a non-empty URL appends exactly one link to the matching item. -/
theorem c7_witness :
    saveLinkInteraction emptyFs [c7Item] "a" "" "n" "u" "T1" "T2" none true
      = (emptyFs, Outcome.invalid)
    ∧ addLink "a" "http" "n" "u" "T1" "T2" [c7Item]
      = [{ c7Item with links := c7Item.links ++ [mkLink "http" "n" "u" "T1"],
                       updated_at := "T2" }] := by
  have h := c7_add_link emptyFs [] [] c7Item "a" "" "n" "u" "T1" "T2" none true
    (by simp) rfl
  have h2 := c7_add_link emptyFs [] [] c7Item "a" "http" "n" "u" "T1" "T2" none true
    (by simp) rfl
  exact ⟨h.1 rfl, h2.2 (by decide)⟩

/-- C8: replying to the thread with a given id appends exactly one post —
fresh id, current actor and `ts()` reading, trimmed text — to that
thread's post sequence (count `+1`) and leaves every other thread in the
collection exactly unchanged. -/
theorem c8_reply_appends (pre post : List Thread) (th : Thread)
    (tid text user pid now : String)
    (hpre : ∀ y ∈ pre, (y.id == tid) = false) (hth : th.id = tid) :
    replyToThreads tid text user pid now (pre ++ th :: post)
      = pre ++ ({ th with posts := th.posts ++ [mkPost pid user now text] }) :: post
    ∧ ({ th with posts := th.posts ++ [mkPost pid user now text] }).posts.length
      = th.posts.length + 1 := by
  exact ⟨replyToThreads_found tid text user pid now pre post th hpre hth, by simp⟩

/-- C8 witness: replying `ok` to the second of two threads adds exactly
one post there and leaves the first thread unchanged. -/
theorem c8_witness :
    replyToThreads "t2" "ok" "u" "pid" "T1"
        ([{ id := "t1", title := "x", created_by := "v", created_at := "T0", tags := [],
            posts := [] }]
          ++ ({ id := "t2", title := "y", created_by := "v", created_at := "T0", tags := [],
                posts := [mkPost "p0" "v" "T0" "hello"] } : Thread) :: [])
      = [{ id := "t1", title := "x", created_by := "v", created_at := "T0", tags := [],
           posts := [] }]
        ++ ({ id := "t2", title := "y", created_by := "v", created_at := "T0", tags := [],
              posts := [mkPost "p0" "v" "T0" "hello"] ++ [mkPost "pid" "u" "T1" "ok"] }
            : Thread) :: []
    ∧ ([mkPost "p0" "v" "T0" "hello"] ++ [mkPost "pid" "u" "T1" "ok"]).length
      = [mkPost "p0" "v" "T0" "hello"].length + 1 := by
  have h := c8_reply_appends
    [{ id := "t1", title := "x", created_by := "v", created_at := "T0", tags := [],
       posts := [] }] []
    ({ id := "t2", title := "y", created_by := "v", created_at := "T0", tags := [],
       posts := [mkPost "p0" "v" "T0" "hello"] })
    "t2" "ok" "u" "pid" "T1" (by decide) rfl
  exact ⟨h.1, h.2⟩

/-- An item with no `.` anywhere in its fields, for the C2
counterexample. -/
def c2Item : Item :=
  { id := "i1"
    title := "ab"
    project_code := "cd"
    work_type := "ef"
    links := []
    tags := []
    created_by := "u"
    created_at := "t"
    updated_at := "t"
    upvotes := 0 }

/-- C2 counterexample: the query `.` is passed to pandas
`Series.str.contains` as a regular expression, so it matches this item's
title (`.` matches any character), and the filter returns the item even
though `.` is not a case-insensitive substring of its title,
project_code, work_type, or any tag — refuting the claim that only
substring-matching items are returned. -/
theorem c2_counterexample :
    filterItems "." "" "" [c2Item] = some [c2Item]
    ∧ specQMatch "." c2Item = false
    ∧ specRowPred "." "" "" c2Item = false := by
  refine ⟨?_, ?_, ?_⟩ <;> decide

/-- C2 (amended): pandas `str.contains` treats the free-text query (and
the project-code and work-type filters) as regular expressions over the
lowered column values, while tags are tested by literal substring; for
queries and filters free of regex metacharacters this coincides exactly
with the claimed case-insensitive substring semantics: the filter keeps
precisely the items satisfying the substring disjunction and the other
supplied filters, in order. -/
theorem c2_filter_substring (q code work_type : String) (items : List Item)
    (hq : ∀ c ∈ (pyLower q).toList, reMeta c = false)
    (hcode : ∀ c ∈ (pyLower code).toList, reMeta c = false)
    (hwt : ∀ c ∈ (pyLower work_type).toList, reMeta c = false) :
    filterItems q code work_type items = some (items.filter (specRowPred q code work_type))
    ∧ ∀ it, it ∈ items.filter (specRowPred q code work_type)
        ↔ (it ∈ items ∧ specRowPred q code work_type it = true) := by
  refine ⟨filterItems_lit q code work_type items hq hcode hwt, ?_⟩
  intro it
  simp [List.mem_filter]

/-- The spec's search-scenario item (`Carta Status` / `FT02`). -/
def c2ScenarioItem : Item :=
  { id := "i2"
    title := "Carta Status"
    project_code := "FT02"
    work_type := "subestacao"
    links := []
    tags := []
    created_by := "u"
    created_at := "t"
    updated_at := "t"
    upvotes := 0 }

/-- C2 witness: searching `ft02` (lower case) over a one-item collection
returns exactly the filtered list, and the scenario item is retained
because `ft02` is a case-insensitive substring of its project code. -/
theorem c2_witness :
    filterItems "ft02" "" "" [c2ScenarioItem]
      = some ([c2ScenarioItem].filter (specRowPred "ft02" "" ""))
    ∧ (c2ScenarioItem ∈ [c2ScenarioItem].filter (specRowPred "ft02" "" "")
        ↔ (c2ScenarioItem ∈ [c2ScenarioItem]
            ∧ specRowPred "ft02" "" "" c2ScenarioItem = true)) := by
  have h := c2_filter_substring "ft02" "" "" [c2ScenarioItem]
    (by decide) (by decide) (by decide)
  exact ⟨h.1, h.2 c2ScenarioItem⟩

end ExxataApp
